import Mathlib

/-!
Shallow Lean embedding of the attribution engine of the fin-agent repository
(src/l2_engine/attribution and the unnamed risk attribution calculator),
faithful to the TypeScript source.  JS floating point numbers are modelled as
exact rationals, except where the source applies Math.sqrt or Math.log, which
are modelled over the reals.  JS Map objects are modelled as insertion
ordered association lists; keyed Map accumulation is modelled as the first
occurrence ordered list of keys together with filtered sums per key, which is
exactly the accumulation the source performs bucket by bucket.  Divisions the
source leaves unguarded are modelled with an Option valued division whose
none constructor stands for the non finite JS values NaN and Infinity.
-/

-- ===========================================================================
-- Generic JS modelling helpers
-- ===========================================================================

/-- Association list lookup with default, modelling a JS Map.get call with a
fallback (the source writes map.get(k) with a fallback of 0 or an empty
array).  Map keys are unique, so the first matching binding is the binding. -/
def lookupD {α : Type} (l : List (String × α)) (k : String) (d : α) : α :=
  match l.find? (fun kv => kv.1 == k) with
  | some kv => kv.2
  | none => d

/-- Substring test modelling the JS String.includes method. -/
def containsSub (s pat : String) : Bool :=
  s.toList.tails.any (fun t => pat.toList.isPrefixOf t)

/-- Division returning none on a zero divisor; none models the non finite JS
results NaN and Infinity of an unguarded floating point division by zero.  No
JS arithmetic operation maps a non finite operand back to a finite value, so
propagating none through Option is faithful for finiteness statements. -/
def jsDiv (a b : ℚ) : Option ℚ :=
  if b = 0 then none else some (a / b)

/-- Division over the reals returning none on a zero divisor, used where the
source divides quantities produced by Math.sqrt. -/
noncomputable def jsDivR (a b : ℝ) : Option ℝ :=
  if b = 0 then none else some (a / b)

/-- First occurrence deduplication with an accumulator of already seen keys;
this reproduces the key order of a JS Map, which keeps the first insertion
position of every key. -/
def firstDedupAux (seen : List String) : List String → List String
  | [] => []
  | a :: l => if a ∈ seen then firstDedupAux seen l else a :: firstDedupAux (a :: seen) l

/-- Key list of a JS Map built by repeated set calls: every distinct key once,
in first occurrence order. -/
def firstDedup (l : List String) : List String :=
  firstDedupAux [] l

theorem mem_firstDedupAux (seen : List String) (l : List String) (x : String) :
    x ∈ firstDedupAux seen l ↔ x ∈ l ∧ x ∉ seen := by
  induction l generalizing seen with
  | nil => simp [firstDedupAux]
  | cons a l ih =>
    by_cases ha : a ∈ seen
    · simp only [firstDedupAux, if_pos ha, ih]
      constructor
      · rintro ⟨hx, hxs⟩
        exact ⟨List.mem_cons_of_mem a hx, hxs⟩
      · rintro ⟨hx, hxs⟩
        rcases List.mem_cons.mp hx with rfl | hx
        · exact absurd ha hxs
        · exact ⟨hx, hxs⟩
    · simp only [firstDedupAux, if_neg ha]
      constructor
      · intro hx
        rcases List.mem_cons.mp hx with rfl | hx
        · exact ⟨List.mem_cons_self x l, ha⟩
        · rcases (ih (a :: seen)).mp hx with ⟨h1, h2⟩
          refine ⟨List.mem_cons_of_mem a h1, fun hc => h2 (List.mem_cons_of_mem a hc)⟩
      · rintro ⟨hx, hxs⟩
        rcases List.mem_cons.mp hx with rfl | hx
        · exact List.mem_cons_self x _
        · by_cases hxa : x = a
          · exact hxa ▸ List.mem_cons_self a _
          · exact List.mem_cons_of_mem a
              ((ih (a :: seen)).mpr ⟨hx, fun hc => by
                rcases List.mem_cons.mp hc with h | h
                · exact hxa h
                · exact hxs h⟩)

theorem mem_firstDedup (l : List String) (x : String) :
    x ∈ firstDedup l ↔ x ∈ l := by
  simp [firstDedup, mem_firstDedupAux]

theorem nodup_firstDedupAux (seen : List String) (l : List String) :
    (firstDedupAux seen l).Nodup := by
  induction l generalizing seen with
  | nil => simp [firstDedupAux]
  | cons a l ih =>
    by_cases ha : a ∈ seen
    · simpa [firstDedupAux, if_pos ha] using ih seen
    · rw [show firstDedupAux seen (a :: l) = a :: firstDedupAux (a :: seen) l from by
        simp [firstDedupAux, if_neg ha]]
      refine List.nodup_cons.mpr ⟨?_, ih (a :: seen)⟩
      intro hc
      exact ((mem_firstDedupAux (a :: seen) l a).mp hc).2 (List.mem_cons_self a seen)

theorem nodup_firstDedup (l : List String) : (firstDedup l).Nodup :=
  nodup_firstDedupAux [] l

-- ===========================================================================
-- Shared list summation lemmas
-- ===========================================================================

theorem list_sum_map_add {α : Type} (l : List α) (f g : α → ℚ) :
    (l.map (fun a => f a + g a)).sum = (l.map f).sum + (l.map g).sum := by
  induction l with
  | nil => simp
  | cons a l ih => simp [ih]; ring

/-- A list of nonnegative rationals with sum zero is pointwise zero. -/
theorem eq_zero_of_sum_eq_zero_of_nonneg (l : List ℚ) (h : ∀ x ∈ l, 0 ≤ x)
    (hs : l.sum = 0) : ∀ x ∈ l, x = 0 := by
  induction l with
  | nil => simp
  | cons a l ih =>
    have ha : 0 ≤ a := h a (List.mem_cons_self a l)
    have hl : ∀ x ∈ l, 0 ≤ x := fun x hx => h x (List.mem_cons_of_mem a hx)
    have hls : 0 ≤ l.sum := List.sum_nonneg hl
    have hsum : a + l.sum = 0 := by simpa using hs
    have ha0 : a = 0 := le_antisymm (by linarith) ha
    have hl0 : l.sum = 0 := by linarith
    intro x hx
    rcases List.mem_cons.mp hx with rfl | hx
    · exact ha0
    · exact ih hl hl0 x hx

/-- Sum over the fibers of a key function: summing the per key filtered sums
over a finite set containing every key gives the total sum.  This is the
arithmetic content of accumulating list entries into a JS Map keyed by the
key function. -/
theorem sum_fiber_eq {α : Type} (l : List α) (key : α → String) (f : α → ℚ)
    (S : Finset String) (hin : ∀ a ∈ l, key a ∈ S) :
    (∑ s ∈ S, ((l.filter (fun a => key a = s)).map f).sum) = (l.map f).sum := by
  induction l with
  | nil => simp
  | cons a l ih =>
    have hin' : ∀ b ∈ l, key b ∈ S := fun b hb => hin b (List.mem_cons_of_mem a hb)
    have hstep : ∀ s ∈ S,
        (((a :: l).filter (fun b => key b = s)).map f).sum =
          (if key a = s then f a else 0) + ((l.filter (fun b => key b = s)).map f).sum := by
      intro s _
      by_cases hk : key a = s
      · simp [List.filter_cons, hk]
      · simp [List.filter_cons, hk]
    rw [Finset.sum_congr rfl hstep, Finset.sum_add_distrib]
    have hind : (∑ s ∈ S, if key a = s then f a else 0) = f a := by
      rw [Finset.sum_ite_eq S (key a) (fun _ => f a)]
      simp [hin a (List.mem_cons_self a l)]
    rw [hind, ih hin']
    simp

-- ===========================================================================
-- Data model (src/types/attribution.ts)
-- ===========================================================================

/-- Portfolio position record from src/types/attribution.ts.  The TS field
named return is embedded as ret because return is a Lean keyword; the legacy
portfolioWeight field and the sector tag are optional in TS and are Option
valued here. -/
structure PortfolioPosition where
  ticker : String
  weight : ℚ
  ret : ℚ
  contribution : ℚ
  marketValue : ℚ
  portfolioWeight : Option ℚ := none
  sector : Option String := none
deriving DecidableEq

/-- Benchmark record from src/types/attribution.ts: constituent weight and
constituent return maps plus a precomputed total return. -/
structure BenchmarkData where
  name : String
  weights : List (String × ℚ)
  returns : List (String × ℚ)
  totalReturn : ℚ
deriving DecidableEq

/-- Sector bucket record from src/types/attribution.ts. -/
structure SectorAttribution where
  sector : String
  portfolioWeight : ℚ
  benchmarkWeight : ℚ
  portfolioReturn : ℚ
  benchmarkReturn : ℚ
  allocationEffect : ℚ
  selectionEffect : ℚ
  interactionEffect : ℚ
  totalEffect : ℚ
deriving DecidableEq

-- ===========================================================================
-- Brinson calculator (src/l2_engine/attribution/brinson_calculator.ts)
-- ===========================================================================

/-- Effective weight used by the sector aggregation: the source reads
pos.portfolioWeight || pos.weight, and the JS or operator treats 0 as falsy,
so a missing or zero legacy weight falls back to weight. -/
def effWeight (p : PortfolioPosition) : ℚ :=
  match p.portfolioWeight with
  | some w => if w = 0 then p.weight else w
  | none => p.weight

/-- Sector label of a position: the source reads pos.sector || Unknown, and
the JS or operator treats the empty string as falsy, so a missing or empty
sector tag falls back to Unknown. -/
def posSector (p : PortfolioPosition) : String :=
  match p.sector with
  | some s => if s = "" then "Unknown" else s
  | none => "Unknown"

/-- Constituent return lookup: the source reads benchmark.returns.get(ticker)
with fallback 0. -/
def benchRet (benchmark : BenchmarkData) (ticker : String) : ℚ :=
  lookupD benchmark.returns ticker 0

/-- Sector inference of brinson_calculator.ts (inferSector): hard coded ticker
substring patterns with an Unknown fallback. -/
def inferSector (ticker : String) : String :=
  if containsSub ticker "0700" || containsSub ticker "TECH" then "Technology"
  else if containsSub ticker "BABA" || containsSub ticker "AMZN" then "Consumer Discretionary"
  else if containsSub ticker "AAPL" || containsSub ticker "MSFT" then "Technology"
  else if containsSub ticker "JPM" || containsSub ticker "BAC" then "Financials"
  else if containsSub ticker "JNJ" || containsSub ticker "PFE" then "Health Care"
  else if containsSub ticker "XOM" || containsSub ticker "CVX" then "Energy"
  else "Unknown"

/-- Sector labels of the bucket Map of calculateSectorAttribution: the
portfolio loop inserts position sectors first, the benchmark loop inserts
inferred sectors second, and the Map keeps first occurrence order. -/
def sectorLabels (positions : List PortfolioPosition) (benchmark : BenchmarkData) : List String :=
  firstDedup ((positions.map posSector) ++ (benchmark.weights.map (fun kv => inferSector kv.1)))

/-- Accumulated portfolio weight of the bucket with label s. -/
def sectorPosWeight (positions : List PortfolioPosition) (s : String) : ℚ :=
  ((positions.filter (fun p => posSector p = s)).map effWeight).sum

/-- Accumulated portfolio contribution of the bucket with label s (the field
named portfolioReturn in the bucket record holds this contribution sum). -/
def sectorPosContribution (positions : List PortfolioPosition) (s : String) : ℚ :=
  ((positions.filter (fun p => posSector p = s)).map (fun p => p.contribution)).sum

/-- Accumulated benchmark weight of the bucket with label s. -/
def sectorBenchWeight (benchmark : BenchmarkData) (s : String) : ℚ :=
  ((benchmark.weights.filter (fun kv => inferSector kv.1 = s)).map (fun kv => kv.2)).sum

/-- Accumulated weighted benchmark return of the bucket with label s. -/
def sectorBenchReturn (benchmark : BenchmarkData) (s : String) : ℚ :=
  ((benchmark.weights.filter (fun kv => inferSector kv.1 = s)).map
    (fun kv => kv.2 * benchRet benchmark kv.1)).sum

/-- Sector bucket with label s as produced by calculateSectorAttribution: the
accumulated sums, the guarded normalized returns Rp and Rb (0 when the
corresponding weight is 0), and the three Brinson effects. -/
def mkSectorBucket (positions : List PortfolioPosition) (benchmark : BenchmarkData)
    (s : String) : SectorAttribution :=
  let wp := sectorPosWeight positions s
  let wb := sectorBenchWeight benchmark s
  let pr := sectorPosContribution positions s
  let br := sectorBenchReturn benchmark s
  let Rp := if wp ≠ 0 then pr / wp else 0
  let Rb := if wb ≠ 0 then br / wb else 0
  { sector := s
    portfolioWeight := wp
    benchmarkWeight := wb
    portfolioReturn := pr
    benchmarkReturn := br
    allocationEffect := (wp - wb) * Rb
    selectionEffect := wb * (Rp - Rb)
    interactionEffect := (wp - wb) * (Rp - Rb)
    totalEffect := (wp - wb) * Rb + wb * (Rp - Rb) + (wp - wb) * (Rp - Rb) }

/-- Embedding of calculateSectorAttribution: one bucket per distinct sector
label, in Map value order. -/
def calculateSectorAttribution (positions : List PortfolioPosition)
    (benchmark : BenchmarkData) : List SectorAttribution :=
  (sectorLabels positions benchmark).map (mkSectorBucket positions benchmark)

/-- Embedding of calculatePortfolioReturn: the sum of position contributions. -/
def calculatePortfolioReturn (positions : List PortfolioPosition) : ℚ :=
  (positions.map (fun p => p.contribution)).sum

/-- Utility from src/types/attribution.ts. -/
def calculateActiveReturnUtil (portfolioReturn benchmarkReturn : ℚ) : ℚ :=
  portfolioReturn - benchmarkReturn

/-- Total weighted constituent return of a benchmark, the quantity the spec
requires the precomputed totalReturn field to match. -/
def benchWeightedSum (benchmark : BenchmarkData) : ℚ :=
  (benchmark.weights.map (fun kv => kv.2 * benchRet benchmark kv.1)).sum

/-- Result record of the single period Brinson calculation, restricted to the
fields the claims mention; the derived statistics of the source on the same
path are total except for the error case modelled below. -/
structure BrinsonResult where
  portfolioReturn : ℚ
  benchmarkReturn : ℚ
  activeReturn : ℚ
  allocationEffect : ℚ
  selectionEffect : ℚ
  interactionEffect : ℚ
  sectorAttribution : List SectorAttribution
deriving DecidableEq

/-- Embedding of calculateSinglePeriodAttribution.  The source computes the
attribution quality before returning, and calculateAttributionConsistency
calls ss.mean on the list of bucket total effects; simple-statistics mean
throws on an empty array, so the call raises exactly when the sector list is
empty (no positions and no benchmark constituents).  Every other
subcomputation on the path is guarded and total. -/
def calculateSinglePeriodAttribution (positions : List PortfolioPosition)
    (benchmark : BenchmarkData) : Except String BrinsonResult :=
  let sa := calculateSectorAttribution positions benchmark
  if sa.isEmpty then
    Except.error "mean requires at least one data point"
  else
    let portfolioReturn := calculatePortfolioReturn positions
    let benchmarkReturn := benchmark.totalReturn
    Except.ok
      { portfolioReturn := portfolioReturn
        benchmarkReturn := benchmarkReturn
        activeReturn := calculateActiveReturnUtil portfolioReturn benchmarkReturn
        allocationEffect := (sa.map (fun s => s.allocationEffect)).sum
        selectionEffect := (sa.map (fun s => s.selectionEffect)).sum
        interactionEffect := (sa.map (fun s => s.interactionEffect)).sum
        sectorAttribution := sa }

-- ===========================================================================
-- Reconciliation of the Brinson effects (claim C1)
-- ===========================================================================

/-- Algebra of one sector bucket: allocation plus selection plus interaction
collapses to wp times Rp minus wb times Rb, which equals the accumulated
contribution minus the accumulated weighted benchmark return except when a
zero aggregate weight forces the normalized return to 0. -/
theorem brinson_bucket_algebra (wp wb pr br : ℚ) :
    (wp - wb) * (if wb ≠ 0 then br / wb else 0) +
      wb * ((if wp ≠ 0 then pr / wp else 0) - (if wb ≠ 0 then br / wb else 0)) +
      (wp - wb) * ((if wp ≠ 0 then pr / wp else 0) - (if wb ≠ 0 then br / wb else 0)) =
      (if wp = 0 then 0 else pr) - (if wb = 0 then 0 else br) := by
  by_cases hwp : wp = 0 <;> by_cases hwb : wb = 0
  all_goals simp [hwp, hwb]
  all_goals field_simp
  all_goals ring

theorem mkSectorBucket_totalEffect (positions : List PortfolioPosition)
    (benchmark : BenchmarkData) (s : String) :
    (mkSectorBucket positions benchmark s).totalEffect =
      (if sectorPosWeight positions s = 0 then 0 else sectorPosContribution positions s) -
      (if sectorBenchWeight benchmark s = 0 then 0 else sectorBenchReturn benchmark s) := by
  simpa [mkSectorBucket] using
    brinson_bucket_algebra (sectorPosWeight positions s) (sectorBenchWeight benchmark s)
      (sectorPosContribution positions s) (sectorBenchReturn benchmark s)

theorem mkSectorBucket_effects_eq_total (positions : List PortfolioPosition)
    (benchmark : BenchmarkData) (s : String) :
    (mkSectorBucket positions benchmark s).allocationEffect +
      (mkSectorBucket positions benchmark s).selectionEffect +
      (mkSectorBucket positions benchmark s).interactionEffect =
      (mkSectorBucket positions benchmark s).totalEffect := by
  simp [mkSectorBucket]

/-- Under nonnegative effective weights and the contribution invariant, a
bucket whose aggregate portfolio weight vanishes has vanishing aggregate
contribution. -/
theorem sectorPosContribution_eq_zero (positions : List PortfolioPosition) (s : String)
    (hc : ∀ p ∈ positions, p.contribution = effWeight p * p.ret)
    (hw : ∀ p ∈ positions, 0 ≤ effWeight p)
    (h0 : sectorPosWeight positions s = 0) :
    sectorPosContribution positions s = 0 := by
  unfold sectorPosContribution
  apply List.sum_eq_zero
  intro x hx
  rcases List.mem_map.mp hx with ⟨p, hpf, rfl⟩
  have hpmem : p ∈ positions := List.mem_of_mem_filter hpf
  have hw0 : effWeight p = 0 := by
    refine eq_zero_of_sum_eq_zero_of_nonneg _ ?_ h0 (effWeight p) (List.mem_map_of_mem _ hpf)
    intro y hy
    rcases List.mem_map.mp hy with ⟨q, hqf, rfl⟩
    exact hw q (List.mem_of_mem_filter hqf)
  rw [hc p hpmem, hw0, zero_mul]

/-- Under nonnegative benchmark weights, a bucket whose aggregate benchmark
weight vanishes has vanishing aggregate weighted benchmark return. -/
theorem sectorBenchReturn_eq_zero (benchmark : BenchmarkData) (s : String)
    (hb : ∀ kv ∈ benchmark.weights, 0 ≤ kv.2)
    (h0 : sectorBenchWeight benchmark s = 0) :
    sectorBenchReturn benchmark s = 0 := by
  unfold sectorBenchReturn
  apply List.sum_eq_zero
  intro x hx
  rcases List.mem_map.mp hx with ⟨kv, hkf, rfl⟩
  have hw0 : kv.2 = 0 := by
    refine eq_zero_of_sum_eq_zero_of_nonneg _ ?_ h0 kv.2 (List.mem_map_of_mem _ hkf)
    intro y hy
    rcases List.mem_map.mp hy with ⟨q, hqf, rfl⟩
    exact hb q (List.mem_of_mem_filter hqf)
  rw [hw0, zero_mul]

theorem list_sum_map_sub {α : Type} (l : List α) (f g : α → ℚ) :
    (l.map (fun a => f a - g a)).sum = (l.map f).sum - (l.map g).sum := by
  induction l with
  | nil => simp
  | cons a l ih => simp [ih]; ring

theorem posSector_mem_sectorLabels (positions : List PortfolioPosition)
    (benchmark : BenchmarkData) (p : PortfolioPosition) (hp : p ∈ positions) :
    posSector p ∈ sectorLabels positions benchmark :=
  (mem_firstDedup _ _).mpr (List.mem_append.mpr (Or.inl (List.mem_map_of_mem posSector hp)))

theorem inferSector_mem_sectorLabels (positions : List PortfolioPosition)
    (benchmark : BenchmarkData) (kv : String × ℚ) (hkv : kv ∈ benchmark.weights) :
    inferSector kv.1 ∈ sectorLabels positions benchmark :=
  (mem_firstDedup _ _).mpr
    (List.mem_append.mpr (Or.inr (List.mem_map.mpr ⟨kv, hkv, rfl⟩)))

/-- Sum of the bucket total effects: an exact reconciliation with the total
contribution and the total weighted benchmark return, valid whenever zero
weight buckets carry zero aggregates (for which nonnegative weights and the
contribution invariant suffice). -/
theorem sum_totalEffect_eq (positions : List PortfolioPosition) (benchmark : BenchmarkData)
    (hc : ∀ p ∈ positions, p.contribution = effWeight p * p.ret)
    (hw : ∀ p ∈ positions, 0 ≤ effWeight p)
    (hb : ∀ kv ∈ benchmark.weights, 0 ≤ kv.2) :
    ((calculateSectorAttribution positions benchmark).map (fun s => s.totalEffect)).sum =
      calculatePortfolioReturn positions - benchWeightedSum benchmark := by
  unfold calculateSectorAttribution
  rw [List.map_map]
  have hpoint : ∀ s, (mkSectorBucket positions benchmark s).totalEffect =
      sectorPosContribution positions s - sectorBenchReturn benchmark s := by
    intro s
    rw [mkSectorBucket_totalEffect]
    have h1 : (if sectorPosWeight positions s = 0 then 0 else sectorPosContribution positions s)
        = sectorPosContribution positions s := by
      by_cases hwp : sectorPosWeight positions s = 0
      · rw [if_pos hwp, sectorPosContribution_eq_zero positions s hc hw hwp]
      · rw [if_neg hwp]
    have h2 : (if sectorBenchWeight benchmark s = 0 then 0 else sectorBenchReturn benchmark s)
        = sectorBenchReturn benchmark s := by
      by_cases hwb : sectorBenchWeight benchmark s = 0
      · rw [if_pos hwb, sectorBenchReturn_eq_zero benchmark s hb hwb]
      · rw [if_neg hwb]
    rw [h1, h2]
  have hmapeq : (sectorLabels positions benchmark).map
        ((fun s => s.totalEffect) ∘ mkSectorBucket positions benchmark) =
      (sectorLabels positions benchmark).map
        (fun s => sectorPosContribution positions s - sectorBenchReturn benchmark s) :=
    List.map_congr_left (fun s _ => hpoint s)
  rw [hmapeq, list_sum_map_sub]
  have hnd : (sectorLabels positions benchmark).Nodup := nodup_firstDedup _
  have hpos : ((sectorLabels positions benchmark).map
      (fun s => sectorPosContribution positions s)).sum = calculatePortfolioReturn positions := by
    rw [← List.sum_toFinset _ hnd]
    exact sum_fiber_eq positions posSector (fun p => p.contribution) _
      (fun p hp => List.mem_toFinset.mpr (posSector_mem_sectorLabels positions benchmark p hp))
  have hben : ((sectorLabels positions benchmark).map
      (fun s => sectorBenchReturn benchmark s)).sum = benchWeightedSum benchmark := by
    rw [← List.sum_toFinset _ hnd]
    exact sum_fiber_eq benchmark.weights (fun kv => inferSector kv.1)
      (fun kv => kv.2 * benchRet benchmark kv.1) _
      (fun kv hkv => List.mem_toFinset.mpr (inferSector_mem_sectorLabels positions benchmark kv hkv))
  rw [hpos, hben]

/-- Sum of the three top level effects: they are the bucket sums, so together
they reconcile exactly with contribution total minus weighted benchmark
total. -/
theorem sum_three_effects_eq (positions : List PortfolioPosition) (benchmark : BenchmarkData)
    (hc : ∀ p ∈ positions, p.contribution = effWeight p * p.ret)
    (hw : ∀ p ∈ positions, 0 ≤ effWeight p)
    (hb : ∀ kv ∈ benchmark.weights, 0 ≤ kv.2) :
    ((calculateSectorAttribution positions benchmark).map (fun s => s.allocationEffect)).sum +
      ((calculateSectorAttribution positions benchmark).map (fun s => s.selectionEffect)).sum +
      ((calculateSectorAttribution positions benchmark).map (fun s => s.interactionEffect)).sum =
      calculatePortfolioReturn positions - benchWeightedSum benchmark := by
  have h3 : ((calculateSectorAttribution positions benchmark).map
        (fun s => s.allocationEffect)).sum +
      ((calculateSectorAttribution positions benchmark).map (fun s => s.selectionEffect)).sum +
      ((calculateSectorAttribution positions benchmark).map (fun s => s.interactionEffect)).sum =
      ((calculateSectorAttribution positions benchmark).map (fun s => s.totalEffect)).sum := by
    rw [← list_sum_map_add, ← list_sum_map_add]
    unfold calculateSectorAttribution
    rw [List.map_map, List.map_map]
    apply congrArg List.sum
    apply List.map_congr_left
    intro s _
    simpa using mkSectorBucket_effects_eq_total positions benchmark s
  rw [h3, sum_totalEffect_eq positions benchmark hc hw hb]

/-- C1 (amended): for every single period input whose positions satisfy the
contribution invariant contribution = effectiveWeight * ret with nonnegative
effective weights, whose benchmark constituent weights are nonnegative, and
whose precomputed benchmark totalReturn equals the weighted constituent
return sum, every successful result of calculateSinglePeriodAttribution
satisfies allocationEffect + selectionEffect + interactionEffect =
activeReturn and the bucket total effects also sum to activeReturn, exactly
in rational arithmetic and hence well inside the 1e-6 relative tolerance of
the claim. -/
theorem brinson_effects_reconcile (positions : List PortfolioPosition)
    (benchmark : BenchmarkData) (r : BrinsonResult)
    (hr : calculateSinglePeriodAttribution positions benchmark = Except.ok r)
    (hc : ∀ p ∈ positions, p.contribution = effWeight p * p.ret)
    (hw : ∀ p ∈ positions, 0 ≤ effWeight p)
    (hb : ∀ kv ∈ benchmark.weights, 0 ≤ kv.2)
    (ht : benchmark.totalReturn = benchWeightedSum benchmark) :
    r.allocationEffect + r.selectionEffect + r.interactionEffect = r.activeReturn ∧
      (r.sectorAttribution.map (fun s => s.totalEffect)).sum = r.activeReturn := by
  unfold calculateSinglePeriodAttribution at hr
  by_cases hE : (calculateSectorAttribution positions benchmark).isEmpty
  · rw [if_pos hE] at hr
    exact absurd hr (by simp)
  · rw [if_neg hE, Except.ok.injEq] at hr
    subst hr
    constructor
    · simp only [calculateActiveReturnUtil]
      rw [sum_three_effects_eq positions benchmark hc hw hb, ht]
    · simp only [calculateActiveReturnUtil]
      rw [sum_totalEffect_eq positions benchmark hc hw hb, ht]

/-- Long position of the C1 counterexample (sector X, weight 0.5, return 0.1,
contribution 0.05 = weight times return). -/
def ctrPosLong : PortfolioPosition := ⟨"LONGA", 1/2, 1/10, 1/20, 0, none, some "X"⟩

/-- Short position of the C1 counterexample (sector X, weight -0.5, return 0,
contribution 0 = weight times return). -/
def ctrPosShort : PortfolioPosition := ⟨"SHORTB", -(1/2), 0, 0, 0, none, some "X"⟩

/-- Portfolio of the C1 counterexample: a long and a short position in one
sector, each satisfying contribution = weight * ret. -/
def ctrPositions : List PortfolioPosition := [ctrPosLong, ctrPosShort]

/-- Benchmark of the C1 counterexample, with a consistent precomputed total. -/
def ctrBenchmark : BenchmarkData :=
  ⟨"B", [("ZZZ", 1)], [("ZZZ", 1/50)], 1/50⟩

/-- C1 (counterexample): a concrete input satisfying the hypotheses of the
claim as stated (contribution = weight * ret per position and totalReturn
equal to the weighted constituent sum, exactly) on which both effect sums
miss the active return by 0.05: the short position makes the sector aggregate
weight 0 while the aggregate contribution stays 0.05, the normalized sector
return is forced to 0, and the reconciliation fails far beyond the 1e-6
relative tolerance. -/
theorem brinson_reconcile_counterexample :
    (∀ p ∈ ctrPositions, p.contribution = p.weight * p.ret) ∧
    ctrBenchmark.totalReturn = benchWeightedSum ctrBenchmark ∧
    (calculateSinglePeriodAttribution ctrPositions ctrBenchmark).map
      (fun r => decide (|r.allocationEffect + r.selectionEffect + r.interactionEffect
        - r.activeReturn| ≤ 1/1000000 * |r.activeReturn|)) = Except.ok false ∧
    (calculateSinglePeriodAttribution ctrPositions ctrBenchmark).map
      (fun r => decide (|(r.sectorAttribution.map (fun s => s.totalEffect)).sum
        - r.activeReturn| ≤ 1/1000000 * |r.activeReturn|)) = Except.ok false := by
  have hinf : inferSector "ZZZ" = "Unknown" := by decide
  have hne1 : ("Unknown" : String) ≠ "X" := by decide
  have hne2 : ("X" : String) ≠ "Unknown" := by decide
  have hps1 : posSector ctrPosLong = "X" := by decide
  have hps2 : posSector ctrPosShort = "X" := by decide
  have hew1 : effWeight ctrPosLong = 1/2 := rfl
  have hew2 : effWeight ctrPosShort = -(1/2) := rfl
  have hco1 : ctrPosLong.contribution = 1/20 := rfl
  have hco2 : ctrPosShort.contribution = 0 := rfl
  have hwt1 : ctrPosLong.weight = 1/2 := rfl
  have hwt2 : ctrPosShort.weight = -(1/2) := rfl
  have hre1 : ctrPosLong.ret = 1/10 := rfl
  have hre2 : ctrPosShort.ret = 0 := rfl
  refine ⟨?_, ?_, ?_, ?_⟩
  · intro p hp
    rcases List.mem_cons.mp hp with rfl | hp
    · rw [hco1, hwt1, hre1]; norm_num
    · rcases List.mem_cons.mp hp with rfl | hp
      · rw [hco2, hwt2, hre2]; norm_num
      · exact absurd hp (List.not_mem_nil p)
  · norm_num [ctrBenchmark, benchWeightedSum, benchRet, lookupD, List.find?]
  · unfold calculateSinglePeriodAttribution calculateSectorAttribution
    rw [(show sectorLabels ctrPositions ctrBenchmark = ["X", "Unknown"] from by decide)]
    norm_num [mkSectorBucket, sectorPosWeight, sectorPosContribution, sectorBenchWeight,
      sectorBenchReturn, ctrPositions, ctrBenchmark, hinf, hne1, hne2, hps1, hps2, hew1, hew2,
      hco1, hco2, benchRet, lookupD, List.filter_cons, List.find?,
      calculatePortfolioReturn, calculateActiveReturnUtil, Except.map]
    rw [abs_of_pos (show (0:ℚ) < 3/100 from by norm_num),
      abs_of_pos (show (0:ℚ) < 1/20 from by norm_num)]
    norm_num
  · unfold calculateSinglePeriodAttribution calculateSectorAttribution
    rw [(show sectorLabels ctrPositions ctrBenchmark = ["X", "Unknown"] from by decide)]
    norm_num [mkSectorBucket, sectorPosWeight, sectorPosContribution, sectorBenchWeight,
      sectorBenchReturn, ctrPositions, ctrBenchmark, hinf, hne1, hne2, hps1, hps2, hew1, hew2,
      hco1, hco2, benchRet, lookupD, List.filter_cons, List.find?,
      calculatePortfolioReturn, calculateActiveReturnUtil, Except.map]
    rw [abs_of_pos (show (0:ℚ) < 3/100 from by norm_num),
      abs_of_pos (show (0:ℚ) < 1/20 from by norm_num)]
    norm_num

/-- Technology position of the concrete two sector scenario of the spec
(wp 0.6, return 0.10, contribution 0.06). -/
def specPosTech : PortfolioPosition := ⟨"AAA", 3/5, 1/10, 3/50, 0, none, some "Technology"⟩

/-- Energy position of the concrete two sector scenario of the spec
(wp 0.4, return 0.02, contribution 0.008). -/
def specPosEnergy : PortfolioPosition := ⟨"BBB", 2/5, 1/50, 1/125, 0, none, some "Energy"⟩

/-- Positions of the concrete two sector scenario of the spec. -/
def specScenarioPositions : List PortfolioPosition := [specPosTech, specPosEnergy]

/-- Benchmark of the concrete two sector scenario of the spec (Technology
wb 0.4 Rb 0.08, Energy wb 0.6 Rb 0.04, total 0.056). -/
def specScenarioBenchmark : BenchmarkData :=
  ⟨"BM", [("TECH1", 2/5), ("XOM", 3/5)], [("TECH1", 2/25), ("XOM", 1/25)], 7/125⟩

/-- Successful result of the spec scenario, extracted from the calculator. -/
def specScenarioResult : BrinsonResult :=
  ((calculateSinglePeriodAttribution specScenarioPositions specScenarioBenchmark).toOption).getD
    ⟨0, 0, 0, 0, 0, 0, []⟩

/-- C1 (witness): the reconciliation theorem applied to the concrete two
sector scenario of the spec, all hypotheses discharged by evaluation. -/
theorem brinson_effects_reconcile_witness :
    calculateSinglePeriodAttribution specScenarioPositions specScenarioBenchmark =
      Except.ok specScenarioResult ∧
    (specScenarioResult.allocationEffect + specScenarioResult.selectionEffect +
      specScenarioResult.interactionEffect = specScenarioResult.activeReturn ∧
      (specScenarioResult.sectorAttribution.map (fun s => s.totalEffect)).sum =
        specScenarioResult.activeReturn) := by
  have hinf1 : inferSector "TECH1" = "Technology" := by decide
  have hinf2 : inferSector "XOM" = "Energy" := by decide
  have hne1 : ("Technology" : String) ≠ "Energy" := by decide
  have hne2 : ("Energy" : String) ≠ "Technology" := by decide
  have hps1 : posSector specPosTech = "Technology" := by decide
  have hps2 : posSector specPosEnergy = "Energy" := by decide
  have hew1 : effWeight specPosTech = 3/5 := rfl
  have hew2 : effWeight specPosEnergy = 2/5 := rfl
  have hco1 : specPosTech.contribution = 3/50 := rfl
  have hco2 : specPosEnergy.contribution = 1/125 := rfl
  constructor
  · unfold specScenarioResult calculateSinglePeriodAttribution calculateSectorAttribution
    rw [(show sectorLabels specScenarioPositions specScenarioBenchmark =
      ["Technology", "Energy"] from by decide)]
    norm_num [mkSectorBucket, sectorPosWeight, sectorPosContribution, sectorBenchWeight,
      sectorBenchReturn, specScenarioPositions, specScenarioBenchmark, hinf1, hinf2, hne1, hne2,
      hps1, hps2, hew1, hew2, hco1, hco2, benchRet, lookupD, List.filter_cons, List.find?,
      calculatePortfolioReturn, calculateActiveReturnUtil, Except.toOption]
  · refine brinson_effects_reconcile specScenarioPositions specScenarioBenchmark
      specScenarioResult ?_ ?_ ?_ ?_ ?_
    · unfold specScenarioResult calculateSinglePeriodAttribution calculateSectorAttribution
      rw [(show sectorLabels specScenarioPositions specScenarioBenchmark =
        ["Technology", "Energy"] from by decide)]
      norm_num [mkSectorBucket, sectorPosWeight, sectorPosContribution, sectorBenchWeight,
        sectorBenchReturn, specScenarioPositions, specScenarioBenchmark, hinf1, hinf2, hne1,
        hne2, hps1, hps2, hew1, hew2, hco1, hco2, benchRet, lookupD, List.filter_cons,
        List.find?, calculatePortfolioReturn, calculateActiveReturnUtil, Except.toOption]
    · intro p hp
      rcases List.mem_cons.mp hp with rfl | hp
      · norm_num [specPosTech, effWeight]
      · rcases List.mem_cons.mp hp with rfl | hp
        · norm_num [specPosEnergy, effWeight]
        · exact absurd hp (List.not_mem_nil p)
    · intro p hp
      rcases List.mem_cons.mp hp with rfl | hp
      · rw [hew1]; norm_num
      · rcases List.mem_cons.mp hp with rfl | hp
        · rw [hew2]; norm_num
        · exact absurd hp (List.not_mem_nil p)
    · intro kv hkv
      rcases List.mem_cons.mp hkv with rfl | hkv
      · norm_num
      · rcases List.mem_cons.mp hkv with rfl | hkv
        · norm_num
        · exact absurd hkv (List.not_mem_nil kv)
    · have hbe : ((("TECH1" : String) == "XOM") = false) := by decide
      norm_num [specScenarioBenchmark, benchWeightedSum, benchRet, lookupD, List.find?, hbe]

-- ===========================================================================
-- Empty portfolio behaviour (claim C6)
-- ===========================================================================

/-- Benchmark with one constituent of weight 1 and return 0.05, total 0.05. -/
def benchOneConstituent : BenchmarkData :=
  ⟨"B6", [("TTT", 1)], [("TTT", 1/20)], 1/20⟩

/-- C6 (counterexample): with zero positions and a benchmark of total return
0.05 carried by a single constituent, calculateSinglePeriodAttribution
returns successfully but the three effects are -0.05, -0.05 and 0.05 rather
than all 0: the benchmark loop still populates the sector buckets, so only
the sum of the effects is -0.05. -/
theorem empty_portfolio_counterexample :
    (calculateSinglePeriodAttribution [] benchOneConstituent).map
      (fun r => decide (r.allocationEffect = 0 ∧ r.selectionEffect = 0 ∧
        r.interactionEffect = 0)) = Except.ok false ∧
    (calculateSinglePeriodAttribution [] benchOneConstituent).map
      (fun r => (r.portfolioReturn, r.activeReturn, r.allocationEffect, r.selectionEffect,
        r.interactionEffect)) = Except.ok (0, -(1/20), -(1/20), -(1/20), 1/20) := by
  have hinf : inferSector "TTT" = "Unknown" := by decide
  constructor
  · unfold calculateSinglePeriodAttribution calculateSectorAttribution
    rw [(show sectorLabels [] benchOneConstituent = ["Unknown"] from by decide)]
    norm_num [mkSectorBucket, sectorPosWeight, sectorPosContribution, sectorBenchWeight,
      sectorBenchReturn, benchOneConstituent, hinf, benchRet, lookupD, List.filter_cons,
      List.find?, calculatePortfolioReturn, calculateActiveReturnUtil, Except.map]
  · unfold calculateSinglePeriodAttribution calculateSectorAttribution
    rw [(show sectorLabels [] benchOneConstituent = ["Unknown"] from by decide)]
    norm_num [mkSectorBucket, sectorPosWeight, sectorPosContribution, sectorBenchWeight,
      sectorBenchReturn, benchOneConstituent, hinf, benchRet, lookupD, List.filter_cons,
      List.find?, calculatePortfolioReturn, calculateActiveReturnUtil, Except.map]

/-- C6 (amended): for the empty position list and any benchmark with
nonnegative constituent weights, at least one constituent and total return
0.05, the calculator returns without raising: portfolio return 0, active
return -0.05, and the three effects summing to the negated weighted
constituent return sum (individually zero only when every sector aggregate of
weighted benchmark returns vanishes).  With no constituents at all the source
instead throws from ss.mean on the empty bucket list. -/
theorem empty_portfolio_attribution (benchmark : BenchmarkData)
    (hne : benchmark.weights ≠ [])
    (hb : ∀ kv ∈ benchmark.weights, 0 ≤ kv.2)
    (ht : benchmark.totalReturn = 1/20) :
    ∃ r, calculateSinglePeriodAttribution [] benchmark = Except.ok r ∧
      r.portfolioReturn = 0 ∧ r.activeReturn = -(1/20) ∧
      r.allocationEffect + r.selectionEffect + r.interactionEffect =
        -(benchWeightedSum benchmark) := by
  have hlab : sectorLabels [] benchmark ≠ [] := by
    obtain ⟨kv, hkv⟩ := List.exists_mem_of_ne_nil benchmark.weights hne
    intro h0
    have hmem := inferSector_mem_sectorLabels [] benchmark kv hkv
    rw [h0] at hmem
    exact absurd hmem (List.not_mem_nil _)
  have hE : ¬ (calculateSectorAttribution [] benchmark).isEmpty = true := by
    unfold calculateSectorAttribution
    intro hcon
    exact hlab (List.map_eq_nil_iff.mp (List.isEmpty_iff.mp hcon))
  have hr : calculateSinglePeriodAttribution [] benchmark = Except.ok
      { portfolioReturn := calculatePortfolioReturn []
        benchmarkReturn := benchmark.totalReturn
        activeReturn := calculateActiveReturnUtil (calculatePortfolioReturn [])
          benchmark.totalReturn
        allocationEffect := ((calculateSectorAttribution [] benchmark).map
          (fun s => s.allocationEffect)).sum
        selectionEffect := ((calculateSectorAttribution [] benchmark).map
          (fun s => s.selectionEffect)).sum
        interactionEffect := ((calculateSectorAttribution [] benchmark).map
          (fun s => s.interactionEffect)).sum
        sectorAttribution := calculateSectorAttribution [] benchmark } := by
    unfold calculateSinglePeriodAttribution
    rw [if_neg hE]
  refine ⟨_, hr, ?_, ?_, ?_⟩
  · rfl
  · simp [calculateActiveReturnUtil, calculatePortfolioReturn, ht]
  · have h := sum_three_effects_eq [] benchmark (by simp) (by simp) hb
    simpa [calculatePortfolioReturn] using h

/-- C6 (witness): the amended statement applied to the one constituent
benchmark with total return 0.05. -/
theorem empty_portfolio_attribution_witness :
    benchOneConstituent.weights ≠ [] ∧
    (∀ kv ∈ benchOneConstituent.weights, 0 ≤ kv.2) ∧
    benchOneConstituent.totalReturn = 1/20 ∧
    (∃ r, calculateSinglePeriodAttribution [] benchOneConstituent = Except.ok r ∧
      r.portfolioReturn = 0 ∧ r.activeReturn = -(1/20) ∧
      r.allocationEffect + r.selectionEffect + r.interactionEffect =
        -(benchWeightedSum benchOneConstituent)) := by
  refine ⟨by simp [benchOneConstituent], ?_, by norm_num [benchOneConstituent], ?_⟩
  · intro kv hkv
    rcases List.mem_cons.mp hkv with rfl | hkv
    · norm_num
    · exact absurd hkv (List.not_mem_nil kv)
  · refine empty_portfolio_attribution benchOneConstituent (by simp [benchOneConstituent]) ?_
      (by norm_num [benchOneConstituent])
    intro kv hkv
    rcases List.mem_cons.mp hkv with rfl | hkv
    · norm_num
    · exact absurd hkv (List.not_mem_nil kv)

-- ===========================================================================
-- Guarded normalized returns (claim C7)
-- ===========================================================================

/-- Division instrumented variant of mkSectorBucket: the two normalized
returns are computed with jsDiv under the same ternary guards the source
writes, so the bucket is none exactly when a division by zero would occur. -/
def mkSectorBucketOpt (positions : List PortfolioPosition) (benchmark : BenchmarkData)
    (s : String) : Option SectorAttribution :=
  let wp := sectorPosWeight positions s
  let wb := sectorBenchWeight benchmark s
  let pr := sectorPosContribution positions s
  let br := sectorBenchReturn benchmark s
  let RpOpt := if wp ≠ 0 then jsDiv pr wp else some 0
  let RbOpt := if wb ≠ 0 then jsDiv br wb else some 0
  match RpOpt, RbOpt with
  | some Rp, some Rb =>
    some { sector := s
           portfolioWeight := wp
           benchmarkWeight := wb
           portfolioReturn := pr
           benchmarkReturn := br
           allocationEffect := (wp - wb) * Rb
           selectionEffect := wb * (Rp - Rb)
           interactionEffect := (wp - wb) * (Rp - Rb)
           totalEffect := (wp - wb) * Rb + wb * (Rp - Rb) + (wp - wb) * (Rp - Rb) }
  | _, _ => none

/-- Division instrumented variant of calculateSectorAttribution: none as soon
as any bucket divides by zero. -/
def calculateSectorAttributionOpt (positions : List PortfolioPosition)
    (benchmark : BenchmarkData) : Option (List SectorAttribution) :=
  (sectorLabels positions benchmark).mapM (mkSectorBucketOpt positions benchmark)

theorem list_mapM_eq_some {α β : Type} (l : List α) (g : α → Option β) (f : α → β)
    (h : ∀ a ∈ l, g a = some (f a)) : l.mapM g = some (l.map f) := by
  induction l with
  | nil => rfl
  | cons a l ih =>
    rw [List.mapM_cons, h a (List.mem_cons_self a l),
      ih (fun b hb => h b (List.mem_cons_of_mem a hb))]
    rfl

/-- C7: the ternary guards of calculateSectorAttribution make the division by
zero branch unreachable: for every input the division instrumented
computation returns some bucket list, equal bucket by bucket to the total
rational embedding, so every per sector effect is a finite rational. -/
theorem sector_attribution_never_divides_by_zero (positions : List PortfolioPosition)
    (benchmark : BenchmarkData) :
    calculateSectorAttributionOpt positions benchmark =
      some (calculateSectorAttribution positions benchmark) := by
  unfold calculateSectorAttributionOpt calculateSectorAttribution
  apply list_mapM_eq_some
  intro s _
  unfold mkSectorBucketOpt mkSectorBucket jsDiv
  by_cases hwp : sectorPosWeight positions s = 0 <;>
    by_cases hwb : sectorBenchWeight benchmark s = 0 <;>
    simp [hwp, hwb]

-- ===========================================================================
-- Sector assignment of benchmark constituents (claim C10)
-- ===========================================================================

/-- C10: portfolio positions are bucketed by their own sector tag while
benchmark constituents are bucketed by the hard coded inferSector patterns
(no caller supplied classification is consulted: calculateSectorAttribution
receives only positions and benchmark).  For a ticker held on both sides
whose position tag differs from inferSector, the portfolio weight and the
benchmark weight land in two distinct buckets. -/
theorem sector_split_of_mismatched_tag (p : PortfolioPosition) (t : String) (w : ℚ)
    (rets : List (String × ℚ)) (nm : String) (tr : ℚ)
    (_hpt : p.ticker = t) (hdiff : posSector p ≠ inferSector t) :
    ∃ b1 b2, calculateSectorAttribution [p] ⟨nm, [(t, w)], rets, tr⟩ = [b1, b2] ∧
      b1.sector = posSector p ∧ b1.portfolioWeight = effWeight p ∧ b1.benchmarkWeight = 0 ∧
      b2.sector = inferSector t ∧ b2.portfolioWeight = 0 ∧ b2.benchmarkWeight = w := by
  have hdiff' : inferSector t ≠ posSector p := Ne.symm hdiff
  have hlab : sectorLabels [p] ⟨nm, [(t, w)], rets, tr⟩ = [posSector p, inferSector t] := by
    simp [sectorLabels, firstDedup, firstDedupAux, hdiff']
  refine ⟨mkSectorBucket [p] ⟨nm, [(t, w)], rets, tr⟩ (posSector p),
    mkSectorBucket [p] ⟨nm, [(t, w)], rets, tr⟩ (inferSector t), ?_, rfl, ?_, ?_, rfl, ?_, ?_⟩
  · unfold calculateSectorAttribution
    rw [hlab]
    rfl
  · simp [mkSectorBucket, sectorPosWeight, List.filter_cons]
  · simp [mkSectorBucket, sectorBenchWeight, List.filter_cons, hdiff']
  · simp [mkSectorBucket, sectorPosWeight, List.filter_cons, hdiff]
  · simp [mkSectorBucket, sectorBenchWeight, List.filter_cons]

/-- Position whose sector tag disagrees with the hard coded inference for its
ticker (inferSector maps AAPL to Technology). -/
def tagPos : PortfolioPosition := ⟨"AAPL", 1/2, 1/10, 1/20, 0, none, some "Consumer Hardware"⟩

/-- C10 (witness): the bucket split theorem applied to an AAPL position
tagged Consumer Hardware while the benchmark constituent AAPL is inferred as
Technology. -/
theorem sector_split_of_mismatched_tag_witness :
    tagPos.ticker = "AAPL" ∧ posSector tagPos ≠ inferSector "AAPL" ∧
    (∃ b1 b2, calculateSectorAttribution [tagPos]
        ⟨"BM10", [("AAPL", 2/5)], [("AAPL", 1/25)], 1/25⟩ = [b1, b2] ∧
      b1.sector = posSector tagPos ∧ b1.portfolioWeight = effWeight tagPos ∧
      b1.benchmarkWeight = 0 ∧
      b2.sector = inferSector "AAPL" ∧ b2.portfolioWeight = 0 ∧ b2.benchmarkWeight = 2/5) :=
  ⟨rfl, by decide,
    sector_split_of_mismatched_tag tagPos "AAPL" (2/5) [("AAPL", 1/25)] "BM10" (1/25)
      rfl (by decide)⟩

-- ===========================================================================
-- Risk attribution calculator (base_attribution.ts and the unnamed
-- RiskAttributionCalculator source file)
-- ===========================================================================

instance : Inhabited PortfolioPosition := ⟨⟨"", 0, 0, 0, 0, none, none⟩⟩

/-- Series lookup modelling returns.get(ticker) with an empty array default. -/
def getSeries (returns : List (String × List ℚ)) (t : String) : List ℚ :=
  lookupD returns t []

/-- Embedding of calculateCovariance from base_attribution.ts: sample
covariance with the n - 1 denominator, 0 for mismatched or empty series.  For
a single observation the source divides 0 by 0 giving NaN; the rational
embedding gives 0 there, and every theorem below uses at least two
observations. -/
def calculateCovariance (x y : List ℚ) : ℚ :=
  if x.length ≠ y.length ∨ x.length = 0 then 0
  else
    let n : ℚ := x.length
    let meanX := x.sum / n
    let meanY := y.sum / n
    (((x.zip y).map (fun p => (p.1 - meanX) * (p.2 - meanY))).sum) / (n - 1)

/-- Entry (i, j) of the covariance matrix of calculateCovarianceMatrix: the
sample covariance of the i-th and j-th series in Map key order (Map keys are
unique, so the i-th key retrieves the i-th stored series). -/
def covMatrixEntry (returns : List (String × List ℚ)) (i j : ℕ) : ℚ :=
  calculateCovariance ((returns.map (fun kv => kv.2)).getD i [])
    ((returns.map (fun kv => kv.2)).getD j [])

/-- Update of an association list modelling JS Map.set: overwrite in place if
the key exists, append otherwise. -/
def mapSet {α : Type} (l : List (String × α)) (k : String) (v : α) : List (String × α) :=
  if l.any (fun kv => kv.1 == k) then l.map (fun kv => if kv.1 == k then (k, v) else kv)
  else l ++ [(k, v)]

/-- Weight map built by calculateAttribution: weights.set(pos.ticker,
pos.weight) over the positions in order. -/
def buildWeights (positions : List PortfolioPosition) : List (String × ℚ) :=
  positions.foldl (fun m p => mapSet m p.ticker p.weight) []

/-- Quadratic form of the weight value array against the covariance matrix,
the variance computed by calculatePortfolioVolatility. -/
def quadForm (ws : List ℚ) (cov : ℕ → ℕ → ℚ) : ℚ :=
  ((List.range ws.length).map (fun i =>
    ((List.range ws.length).map (fun j => ws.getD i 0 * cov i j * ws.getD j 0)).sum)).sum

/-- Embedding of calculatePortfolioVolatility: the square root of the
quadratic form clamped to be nonnegative (Math.sqrt of Math.max(0, v)). -/
noncomputable def calculatePortfolioVolatility (ws : List ℚ) (cov : ℕ → ℕ → ℚ) : ℝ :=
  Real.sqrt (max 0 ((quadForm ws cov : ℚ) : ℝ))

/-- Portfolio return series of the historical simulation: the source loops t
up to the length of the first position series, adding weight times return for
every position whose series is long enough. -/
def portfolioReturnSeries (positions : List PortfolioPosition)
    (returns : List (String × List ℚ)) : List ℚ :=
  let n := match positions.head? with
    | some p => (getSeries returns p.ticker).length
    | none => 0
  (List.range n).map (fun t =>
    (positions.map (fun p =>
      let arr := getSeries returns p.ticker
      if t < arr.length then p.weight * arr.getD t 0 else 0)).sum)

/-- Index floor((1 - c) * N) used by the historical simulation VaR. -/
def varIndex (confidenceLevel : ℚ) (n : ℕ) : ℕ :=
  (Int.floor ((1 - confidenceLevel) * (n : ℚ))).toNat

/-- Embedding of calculateVaR (historical simulation): sort the portfolio
return series ascending and negate the element at the VaR index.  An out of
range index, which the source turns into NaN, is modelled by the default 0
and excluded by the hypotheses of the theorems below. -/
def calculateVaR (positions : List PortfolioPosition)
    (returns : List (String × List ℚ)) (confidenceLevel : ℚ) : ℚ :=
  let sorted := (portfolioReturnSeries positions returns).insertionSort (· ≤ ·)
  Neg.neg (sorted.getD (varIndex confidenceLevel sorted.length) 0)

/-- Embedding of calculateCVaR: negated mean of the sorted portfolio returns
up to and including the VaR index. -/
def calculateCVaR (positions : List PortfolioPosition)
    (returns : List (String × List ℚ)) (confidenceLevel : ℚ) : ℚ :=
  let sorted := (portfolioReturnSeries positions returns).insertionSort (· ≤ ·)
  let cvarReturns := sorted.take (varIndex confidenceLevel sorted.length + 1)
  Neg.neg (cvarReturns.sum / (cvarReturns.length : ℚ))

/-- Per position risk contribution record of the unnamed risk calculator
source, restricted to the fields the claims mention. -/
structure PositionRiskContribution where
  ticker : String
  weight : ℚ
  marginalContribution : ℝ
  percentageContribution : ℝ

/-- Embedding of calculateRiskContributions: the per position accumulation of
weight_i * cov(i, j) * weight_j over j, divided by portfolioVolatility || 1
(the JS or operator replaces a zero volatility by 1), and the guarded
percentage contribution weight_i * marginal / volatility. -/
noncomputable def calculateRiskContributions (positions : List PortfolioPosition)
    (cov : ℕ → ℕ → ℚ) (portfolioVolatility : ℝ) : List PositionRiskContribution :=
  (List.range positions.length).map (fun i =>
    let p := positions.getD i default
    let raw : ℚ := ((List.range positions.length).map (fun j =>
      p.weight * cov i j * (positions.getD j default).weight)).sum
    let marginalContribution : ℝ :=
      (raw : ℝ) / (if portfolioVolatility = 0 then 1 else portfolioVolatility)
    let percentageContribution : ℝ :=
      if portfolioVolatility ≠ 0
      then (p.weight : ℝ) * marginalContribution / portfolioVolatility else 0
    { ticker := p.ticker
      weight := p.weight
      marginalContribution := marginalContribution
      percentageContribution := percentageContribution })

/-- Benchmark VaR field of calculateAttribution: the source writes
portfolioVaR * (benchmarkVolatility / portfolioVolatility) with no guard on
the divisor, so the field is non finite (none) whenever the portfolio
volatility is 0. -/
noncomputable def benchmarkVaRField (portfolioVaR benchmarkVolatility portfolioVolatility : ℝ) :
    Option ℝ :=
  (jsDivR benchmarkVolatility portfolioVolatility).map (fun x => portfolioVaR * x)

/-- Population variance (the variance used by the standardDeviation function
of simple-statistics, with the n denominator). -/
def popVariance (l : List ℚ) : ℚ :=
  ((l.map (fun x => (x - l.sum / (l.length : ℚ)) ^ 2)).sum) / (l.length : ℚ)

/-- Embedding of calculateTrackingErrorUtil: 0 on an empty list, else the
population standard deviation of simple-statistics. -/
noncomputable def calculateTrackingErrorUtil (activeReturns : List ℚ) : ℝ :=
  if activeReturns = [] then 0
  else Real.sqrt ((popVariance activeReturns : ℚ) : ℝ)

/-- Embedding of calculateInformationRatioUtil: the guarded ratio, 0 when the
tracking error is 0. -/
noncomputable def calculateInformationRatioUtil (activeReturn trackingError : ℝ) : ℝ :=
  if trackingError ≠ 0 then activeReturn / trackingError else 0

-- ===========================================================================
-- Historical simulation VaR (claims C4 and C5)
-- ===========================================================================

/-- Modelled from the spec wording (for comparison with the source embedding
in claim C4): build the portfolio return series of length n by weighting each
instrument series by the position weight, sort ascending, and negate the
element at index floor((1 - c) * n). -/
def specVaR (positions : List PortfolioPosition) (returns : List (String × List ℚ))
    (confidenceLevel : ℚ) (n : ℕ) : ℚ :=
  let series := (List.range n).map (fun t =>
    (positions.map (fun p => p.weight * (getSeries returns p.ticker).getD t 0)).sum)
  Neg.neg ((series.insertionSort (· ≤ ·)).getD (varIndex confidenceLevel n) 0)

/-- C4: for a non empty position list with aligned series of length n, the
source VaR (first series length, truncation guard in the inner loop, sort,
index) coincides with the spec description of the historical simulation
method. -/
theorem calculateVaR_eq_spec (positions : List PortfolioPosition)
    (returns : List (String × List ℚ)) (confidenceLevel : ℚ) (n : ℕ)
    (hne : positions ≠ [])
    (halign : ∀ p ∈ positions, (getSeries returns p.ticker).length = n) :
    calculateVaR positions returns confidenceLevel =
      specVaR positions returns confidenceLevel n := by
  obtain ⟨p0, rest, rfl⟩ := List.exists_cons_of_ne_nil hne
  have hn0 : (getSeries returns p0.ticker).length = n :=
    halign p0 (List.mem_cons_self _ _)
  have hseries : portfolioReturnSeries (p0 :: rest) returns =
      (List.range n).map (fun t =>
        ((p0 :: rest).map (fun p => p.weight * (getSeries returns p.ticker).getD t 0)).sum) := by
    unfold portfolioReturnSeries
    simp only [List.head?_cons, hn0]
    apply List.map_congr_left
    intro t ht
    apply congrArg List.sum
    apply List.map_congr_left
    intro p hp
    rw [if_pos (by rw [halign p hp]; exact List.mem_range.mp ht)]
  have hlen : ((portfolioReturnSeries (p0 :: rest) returns).insertionSort (· ≤ ·)).length = n := by
    rw [(List.perm_insertionSort _ _).length_eq, hseries]
    simp
  simp only [calculateVaR, specVaR]
  rw [hlen, hseries]

/-- Single full weight position of the 20 return VaR scenario of the spec. -/
def varScenarioPositions : List PortfolioPosition := [⟨"ONE", 1, 0, 0, 0, none, none⟩]

/-- Twenty daily returns uniformly from -2 percent to +2 percent in fixed
steps of 4/1900. -/
def varScenarioSeries : List ℚ :=
  (List.range 20).map (fun (t : ℕ) => -(1/50) + (t : ℚ) * (1/475))

/-- Return map of the 20 return VaR scenario. -/
def varScenarioReturns : List (String × List ℚ) := [("ONE", varScenarioSeries)]

/-- C4 (witness): the refinement theorem applied to the 20 return scenario of
the spec at confidence 0.95, where the VaR index is floor(0.05 * 20) = 1. -/
theorem calculateVaR_eq_spec_witness :
    varScenarioPositions ≠ [] ∧
    (∀ p ∈ varScenarioPositions, (getSeries varScenarioReturns p.ticker).length = 20) ∧
    varIndex (19/20) 20 = 1 ∧
    calculateVaR varScenarioPositions varScenarioReturns (19/20) =
      specVaR varScenarioPositions varScenarioReturns (19/20) 20 := by
  have hlen20 : ∀ p ∈ varScenarioPositions, (getSeries varScenarioReturns p.ticker).length = 20 := by
    intro p hp
    rcases List.mem_cons.mp hp with rfl | hp
    · show (getSeries varScenarioReturns "ONE").length = 20
      show varScenarioSeries.length = 20
      unfold varScenarioSeries
      rw [List.length_map, List.length_range]
    · exact absurd hp (List.not_mem_nil p)
  refine ⟨by simp [varScenarioPositions], hlen20, ?_, ?_⟩
  · rw [varIndex]
    norm_num
  · exact calculateVaR_eq_spec varScenarioPositions varScenarioReturns (19/20) 20
      (by simp [varScenarioPositions]) hlen20

theorem varIndex_lt (confidenceLevel : ℚ) (n : ℕ) (hc : 0 < confidenceLevel) (hn : 0 < n) :
    varIndex confidenceLevel n < n := by
  unfold varIndex
  have hn' : (0 : ℚ) < (n : ℚ) := by exact_mod_cast hn
  have h1 : ((1 - confidenceLevel) * (n : ℚ)) < (n : ℚ) := by nlinarith
  have h2 : Int.floor ((1 - confidenceLevel) * (n : ℚ)) < (n : ℤ) := by
    rw [Int.floor_lt]
    exact_mod_cast h1
  omega

/-- C5: with a non empty portfolio return series and a positive confidence
level, the historical simulation CVaR is at least the VaR (the negated mean
of the sorted lower tail dominates the negated quantile), with equality when
all sampled portfolio returns are identical. -/
theorem cvar_ge_var (positions : List PortfolioPosition)
    (returns : List (String × List ℚ)) (confidenceLevel : ℚ)
    (hne : portfolioReturnSeries positions returns ≠ [])
    (hc : 0 < confidenceLevel) :
    calculateVaR positions returns confidenceLevel ≤
      calculateCVaR positions returns confidenceLevel ∧
    ((∀ x ∈ portfolioReturnSeries positions returns,
        ∀ y ∈ portfolioReturnSeries positions returns, x = y) →
      calculateCVaR positions returns confidenceLevel =
        calculateVaR positions returns confidenceLevel) := by
  set prs := portfolioReturnSeries positions returns with hprs
  set sorted := prs.insertionSort (· ≤ ·) with hsorted_def
  have hperm : sorted.Perm prs := List.perm_insertionSort _ _
  have hsorted : sorted.Sorted (· ≤ ·) := List.sorted_insertionSort _ _
  have hlen : sorted.length = prs.length := hperm.length_eq
  have hnpos : 0 < prs.length := List.length_pos.mpr hne
  have hidx : varIndex confidenceLevel sorted.length < sorted.length := by
    rw [hlen]
    exact varIndex_lt confidenceLevel prs.length hc hnpos
  set idx := varIndex confidenceLevel sorted.length with hidx_def
  have hM : sorted.getD idx 0 = sorted.get ⟨idx, hidx⟩ := by
    rw [List.getD_eq_getElem sorted 0 hidx]
    simp
  set M := sorted.get ⟨idx, hidx⟩ with hM_def
  set tk := sorted.take (idx + 1) with htk
  have htklen : tk.length = idx + 1 := List.length_take_of_le (by omega)
  have htkmem : ∀ x ∈ tk, x ≤ M := by
    intro x hx
    obtain ⟨j, hj, rfl⟩ := List.mem_iff_getElem.mp hx
    have hj1 : j < idx + 1 := by omega
    have hjs : j < sorted.length := by omega
    have hget : tk[j] = sorted[j] := List.getElem_take sorted
    rw [hget]
    have hrel := List.Sorted.rel_get_of_le hsorted
      (show (⟨j, hjs⟩ : Fin sorted.length) ≤ ⟨idx, hidx⟩ from by
        simp only [Fin.le_def]
        omega)
    simpa [List.get_eq_getElem] using hrel
  have hsum : tk.sum ≤ (tk.length : ℚ) * M := by
    have := List.sum_le_card_nsmul tk M htkmem
    simpa [nsmul_eq_mul] using this
  have hVaR : calculateVaR positions returns confidenceLevel = -M := by
    simp only [calculateVaR, ← hprs, ← hsorted_def, ← hidx_def, hM]
  have hCVaR : calculateCVaR positions returns confidenceLevel =
      -(tk.sum / (tk.length : ℚ)) := by
    simp only [calculateCVaR, ← hprs, ← hsorted_def, ← hidx_def, htk]
  have hlenpos : (0 : ℚ) < (tk.length : ℚ) := by
    rw [htklen]
    exact_mod_cast Nat.succ_pos idx
  constructor
  · rw [hVaR, hCVaR]
    have hdiv : tk.sum / (tk.length : ℚ) ≤ M := by
      rw [div_le_iff₀ hlenpos]
      linarith [hsum]
    linarith
  · intro hall
    have hMmem : M ∈ prs := hperm.mem_iff.mp (List.get_mem sorted idx hidx)
    have htkeq : ∀ x ∈ tk, x = M := by
      intro x hx
      have hx1 : x ∈ prs := hperm.mem_iff.mp (List.mem_of_mem_take hx)
      exact hall x hx1 M hMmem
    have hsum2 : tk.sum = tk.length • M := List.sum_eq_card_nsmul tk M htkeq
    have hln : (tk.length : ℚ) ≠ 0 := ne_of_gt hlenpos
    rw [hVaR, hCVaR, hsum2, nsmul_eq_mul, mul_comm, mul_div_assoc, div_self hln, mul_one]

/-- Single full weight position of the small CVaR scenario. -/
def cvarScenarioPositions : List PortfolioPosition := [⟨"ONE", 1, 0, 0, 0, none, none⟩]

/-- Two observation return map of the small CVaR scenario. -/
def cvarScenarioReturns : List (String × List ℚ) := [("ONE", [1/100, 1/50])]

/-- C5 (witness): the tail inequality applied to a concrete two observation
sample at confidence 0.95. -/
theorem cvar_ge_var_witness :
    portfolioReturnSeries cvarScenarioPositions cvarScenarioReturns ≠ [] ∧
    (0 : ℚ) < 19/20 ∧
    calculateVaR cvarScenarioPositions cvarScenarioReturns (19/20) ≤
      calculateCVaR cvarScenarioPositions cvarScenarioReturns (19/20) := by
  have hne : portfolioReturnSeries cvarScenarioPositions cvarScenarioReturns ≠ [] := by
    apply List.ne_nil_of_length_pos
    unfold portfolioReturnSeries cvarScenarioPositions
    simp only [List.head?_cons]
    rw [List.length_map, List.length_range]
    show 0 < ([1/100, 1/50] : List ℚ).length
    simp
  exact ⟨hne, by norm_num,
    (cvar_ge_var cvarScenarioPositions cvarScenarioReturns (19/20) hne (by norm_num)).1⟩

-- ===========================================================================
-- Euler risk contributions (claim C2)
-- ===========================================================================

theorem buildWeights_aux (positions : List PortfolioPosition) (acc : List (String × ℚ))
    (hfresh : ∀ p ∈ positions, ∀ kv ∈ acc, kv.1 ≠ p.ticker)
    (hnd : (positions.map (fun p => p.ticker)).Nodup) :
    positions.foldl (fun m p => mapSet m p.ticker p.weight) acc =
      acc ++ positions.map (fun p => (p.ticker, p.weight)) := by
  induction positions generalizing acc with
  | nil => simp
  | cons p ps ih =>
    have hnotin : ¬ acc.any (fun kv => kv.1 == p.ticker) = true := by
      simp only [List.any_eq_true, beq_iff_eq, not_exists]
      intro kv
      intro hc
      exact absurd hc.2 (hfresh p (List.mem_cons_self p ps) kv hc.1)
    have hstep : mapSet acc p.ticker p.weight = acc ++ [(p.ticker, p.weight)] := by
      unfold mapSet
      rw [if_neg hnotin]
    have hnd' : (ps.map (fun p => p.ticker)).Nodup := by
      rw [List.map_cons] at hnd
      exact (List.nodup_cons.mp hnd).2
    have hnotmem : p.ticker ∉ ps.map (fun p => p.ticker) := by
      rw [List.map_cons] at hnd
      exact (List.nodup_cons.mp hnd).1
    have hfresh' : ∀ q ∈ ps, ∀ kv ∈ acc ++ [(p.ticker, p.weight)], kv.1 ≠ q.ticker := by
      intro q hq kv hkv
      rcases List.mem_append.mp hkv with h | h
      · exact hfresh q (List.mem_cons_of_mem p hq) kv h
      · rcases List.mem_singleton.mp h with rfl
        intro hc
        have hc' : p.ticker = q.ticker := hc
        apply hnotmem
        rw [hc']
        exact List.mem_map_of_mem (fun p => p.ticker) hq
    rw [List.foldl_cons, hstep, ih (acc ++ [(p.ticker, p.weight)]) hfresh' hnd']
    simp

/-- Weight map of calculateAttribution: with distinct position tickers the
repeated Map.set calls record exactly one binding per position, in order. -/
theorem buildWeights_eq_of_nodup (positions : List PortfolioPosition)
    (hnd : (positions.map (fun p => p.ticker)).Nodup) :
    buildWeights positions = positions.map (fun p => (p.ticker, p.weight)) := by
  have h := buildWeights_aux positions [] (by simp) hnd
  simpa [buildWeights] using h

theorem list_sum_map_div_real {α : Type} (l : List α) (f : α → ℝ) (c : ℝ) :
    (l.map (fun a => f a / c)).sum = (l.map f).sum / c := by
  induction l with
  | nil => simp
  | cons a l ih => simp [ih, add_div]

theorem list_sum_map_cast {α : Type} (l : List α) (f : α → ℚ) :
    (l.map (fun a => ((f a : ℚ) : ℝ))).sum = (((l.map f).sum : ℚ) : ℝ) := by
  induction l with
  | nil => simp
  | cons a l ih => simp [ih]

/-- C2 (amended): with distinct tickers and a positive quadratic form, the
marginal contributions computed by calculateRiskContributions (the component
form weight_i times the covariance row sum over the volatility) sum exactly
to the portfolio volatility.  This is the Euler identity the code actually
satisfies: the sum of the marginalContribution fields, not the weighted sum
of the claim, equals sigma. -/
theorem euler_marginal_sum (positions : List PortfolioPosition)
    (returns : List (String × List ℚ))
    (hnd : (positions.map (fun p => p.ticker)).Nodup)
    (hq : 0 < quadForm ((buildWeights positions).map (fun kv => kv.2))
      (covMatrixEntry returns)) :
    ((calculateRiskContributions positions (covMatrixEntry returns)
        (calculatePortfolioVolatility ((buildWeights positions).map (fun kv => kv.2))
          (covMatrixEntry returns))).map
      (fun c => c.marginalContribution)).sum =
      calculatePortfolioVolatility ((buildWeights positions).map (fun kv => kv.2))
        (covMatrixEntry returns) := by
  set cov := covMatrixEntry returns with hcov
  set ws := (buildWeights positions).map (fun kv => kv.2) with hws_def
  set Q := quadForm ws cov with hQ
  have hws : ws = positions.map (fun p => p.weight) := by
    rw [hws_def, buildWeights_eq_of_nodup positions hnd, List.map_map]
    rfl
  have hwlen : ws.length = positions.length := by
    rw [hws, List.length_map]
  have hgetD : ∀ i, i < positions.length → ws.getD i 0 = (positions.getD i default).weight := by
    intro i hi
    rw [hws]
    rw [List.getD_eq_getElem (positions.map (fun p => p.weight)) 0
        (by rw [List.length_map]; omega),
      List.getD_eq_getElem positions default hi]
    simp
  have hQr : (0 : ℝ) < ((Q : ℚ) : ℝ) := by exact_mod_cast hq
  have hsigma : calculatePortfolioVolatility ws cov = Real.sqrt ((Q : ℚ) : ℝ) := by
    unfold calculatePortfolioVolatility
    rw [← hQ, max_eq_right (le_of_lt hQr)]
  have hsig_pos : 0 < calculatePortfolioVolatility ws cov := by
    rw [hsigma]
    exact Real.sqrt_pos.mpr hQr
  set sigma := calculatePortfolioVolatility ws cov with hsig_def
  have hsig_ne : sigma ≠ 0 := ne_of_gt hsig_pos
  have hraw : ((List.range positions.length).map (fun i =>
      ((List.range positions.length).map (fun j =>
        (positions.getD i default).weight * cov i j * (positions.getD j default).weight)).sum)).sum
      = Q := by
    rw [hQ]
    unfold quadForm
    rw [hwlen]
    apply congrArg List.sum
    apply List.map_congr_left
    intro i hi
    apply congrArg List.sum
    apply List.map_congr_left
    intro j hj
    rw [hgetD i (List.mem_range.mp hi), hgetD j (List.mem_range.mp hj)]
  unfold calculateRiskContributions
  rw [List.map_map]
  have hpoint : ((List.range positions.length).map
      ((fun c => c.marginalContribution) ∘ (fun i =>
        let p := positions.getD i default
        let raw : ℚ := ((List.range positions.length).map (fun j =>
          p.weight * cov i j * (positions.getD j default).weight)).sum
        let marginalContribution : ℝ :=
          (raw : ℝ) / (if sigma = 0 then 1 else sigma)
        let percentageContribution : ℝ :=
          if sigma ≠ 0
          then (p.weight : ℝ) * marginalContribution / sigma else 0
        ({ ticker := p.ticker
           weight := p.weight
           marginalContribution := marginalContribution
           percentageContribution := percentageContribution } : PositionRiskContribution)))).sum
      = ((List.range positions.length).map (fun i =>
        ((((List.range positions.length).map (fun j =>
          (positions.getD i default).weight * cov i j *
            (positions.getD j default).weight)).sum : ℚ) : ℝ) / sigma)).sum := by
    apply congrArg List.sum
    apply List.map_congr_left
    intro i _
    simp only [Function.comp]
    rw [if_neg hsig_ne]
  rw [hpoint, list_sum_map_div_real, list_sum_map_cast, hraw, hsigma, Real.div_sqrt]

/-- First of two equal weight positions of the Euler scenario. -/
def eulerPosA : PortfolioPosition := ⟨"AA", 1/2, 0, 0, 0, none, none⟩

/-- Second of two equal weight positions of the Euler scenario. -/
def eulerPosB : PortfolioPosition := ⟨"BB", 1/2, 0, 0, 0, none, none⟩

/-- Positions of the Euler scenario. -/
def eulerPositions : List PortfolioPosition := [eulerPosA, eulerPosB]

/-- Identical two observation return series for both tickers of the Euler
scenario (sample variance and covariance 1/50 throughout). -/
def eulerReturns : List (String × List ℚ) :=
  [("AA", [1/10, -(1/10)]), ("BB", [1/10, -(1/10)])]

theorem euler_cov_entry : ∀ i j, i < 2 → j < 2 →
    covMatrixEntry eulerReturns i j = 1/50 := by
  have hser : ∀ i, i < 2 → ((eulerReturns.map (fun kv => kv.2)).getD i []) =
      [1/10, -(1/10)] := by
    intro i hi
    interval_cases i <;> rfl
  intro i j hi hj
  unfold covMatrixEntry
  rw [hser i hi, hser j hj]
  norm_num [calculateCovariance]

theorem euler_weights_value :
    (buildWeights eulerPositions).map (fun kv => kv.2) = [1/2, 1/2] := by
  rw [buildWeights_eq_of_nodup eulerPositions (by decide), List.map_map]
  rfl

theorem euler_quadForm_lit :
    quadForm [1/2, 1/2] (covMatrixEntry eulerReturns) = 1/50 := by
  unfold quadForm
  have hlen : ([1/2, 1/2] : List ℚ).length = 2 := rfl
  have hr2 : List.range 2 = [0, 1] := rfl
  rw [hlen, hr2]
  simp only [List.map_cons, List.map_nil, List.sum_cons, List.sum_nil]
  rw [euler_cov_entry 0 0 (by norm_num) (by norm_num),
    euler_cov_entry 0 1 (by norm_num) (by norm_num),
    euler_cov_entry 1 0 (by norm_num) (by norm_num),
    euler_cov_entry 1 1 (by norm_num) (by norm_num)]
  norm_num

theorem euler_quadForm :
    quadForm ((buildWeights eulerPositions).map (fun kv => kv.2))
      (covMatrixEntry eulerReturns) = 1/50 := by
  rw [euler_weights_value]
  exact euler_quadForm_lit

/-- C2 (witness): the corrected Euler identity at the concrete two position
scenario with identical return series. -/
theorem euler_marginal_sum_witness :
    (eulerPositions.map (fun p => p.ticker)).Nodup ∧
    0 < quadForm ((buildWeights eulerPositions).map (fun kv => kv.2))
      (covMatrixEntry eulerReturns) ∧
    ((calculateRiskContributions eulerPositions (covMatrixEntry eulerReturns)
        (calculatePortfolioVolatility ((buildWeights eulerPositions).map (fun kv => kv.2))
          (covMatrixEntry eulerReturns))).map
      (fun c => c.marginalContribution)).sum =
      calculatePortfolioVolatility ((buildWeights eulerPositions).map (fun kv => kv.2))
        (covMatrixEntry eulerReturns) :=
  ⟨by decide, by rw [euler_quadForm]; norm_num,
    euler_marginal_sum eulerPositions eulerReturns (by decide)
      (by rw [euler_quadForm]; norm_num)⟩

/-- C2 (counterexample): at the same concrete input the percentage
contributions of the code sum to 1/2, not 1: the claim formula for the
marginal contribution carries an extra weight factor, so the claimed
invariant that percentage contributions sum to 1 fails by 1/2, far beyond
floating point error. -/
theorem euler_percentage_counterexample :
    ((calculateRiskContributions eulerPositions (covMatrixEntry eulerReturns)
        (calculatePortfolioVolatility ((buildWeights eulerPositions).map (fun kv => kv.2))
          (covMatrixEntry eulerReturns))).map
      (fun c => c.percentageContribution)).sum = 1/2 ∧
    ¬ (|((calculateRiskContributions eulerPositions (covMatrixEntry eulerReturns)
        (calculatePortfolioVolatility ((buildWeights eulerPositions).map (fun kv => kv.2))
          (covMatrixEntry eulerReturns))).map
      (fun c => c.percentageContribution)).sum - 1| ≤ 1/1000000) := by
  set sigma := calculatePortfolioVolatility ((buildWeights eulerPositions).map (fun kv => kv.2))
    (covMatrixEntry eulerReturns) with hsig_def
  have hsig : sigma = Real.sqrt ((1/50 : ℚ) : ℝ) := by
    rw [hsig_def]
    unfold calculatePortfolioVolatility
    rw [euler_quadForm, max_eq_right (by positivity)]
  have hsig_pos : 0 < sigma := by
    rw [hsig]
    apply Real.sqrt_pos.mpr
    norm_num
  have hsig_ne : sigma ≠ 0 := ne_of_gt hsig_pos
  have hsigsq : sigma * sigma = 1/50 := by
    rw [hsig, Real.mul_self_sqrt (by positivity)]
    norm_num
  have hmain : ((calculateRiskContributions eulerPositions (covMatrixEntry eulerReturns)
      sigma).map (fun c => c.percentageContribution)).sum = 1/2 := by
    unfold calculateRiskContributions
    have hlen : eulerPositions.length = 2 := rfl
    have hr2 : List.range 2 = [0, 1] := rfl
    rw [hlen, hr2]
    simp only [List.map_cons, List.map_nil, List.sum_cons, List.sum_nil]
    rw [euler_cov_entry 0 0 (by norm_num) (by norm_num),
      euler_cov_entry 0 1 (by norm_num) (by norm_num),
      euler_cov_entry 1 0 (by norm_num) (by norm_num),
      euler_cov_entry 1 1 (by norm_num) (by norm_num)]
    rw [if_pos hsig_ne, if_pos hsig_ne]
    have hwa : (eulerPositions.getD 0 default).weight = 1/2 := rfl
    have hwb : (eulerPositions.getD 1 default).weight = 1/2 := rfl
    rw [hwa, hwb]
    simp only [if_neg hsig_ne]
    push_cast
    field_simp
    nlinarith [hsigsq]
  refine ⟨hmain, ?_⟩
  rw [hmain]
  rw [show |(1:ℝ)/2 - 1| = 1/2 from by rw [abs_of_neg (by norm_num)]; norm_num]
  norm_num

-- ===========================================================================
-- Guarded ratios and the unguarded benchmark VaR (claim C8)
-- ===========================================================================

/-- C8 (amended): the utility ratios are guarded (a zero population variance
of the active returns forces the tracking error to 0 and the information
ratio to its 0 default), but the benchmarkVaR field of calculateAttribution
is computed through an unguarded division and is non finite (none) whenever
the portfolio volatility is 0. -/
theorem information_ratio_guard_and_benchmark_var_unguarded :
    (∀ (a : ℝ) (rs : List ℚ), popVariance rs = 0 →
      calculateInformationRatioUtil a (calculateTrackingErrorUtil rs) = 0) ∧
    (∀ pv bv pvol : ℝ, pvol = 0 → benchmarkVaRField pv bv pvol = none) := by
  constructor
  · intro a rs h
    unfold calculateTrackingErrorUtil
    by_cases hrs : rs = []
    · rw [if_pos hrs]
      unfold calculateInformationRatioUtil
      simp
    · rw [if_neg hrs, h]
      unfold calculateInformationRatioUtil
      simp
  · intro pv bv pvol h
    unfold benchmarkVaRField jsDivR
    rw [if_pos h]
    rfl

/-- Single full weight position of the degenerate volatility scenario. -/
def c8Positions : List PortfolioPosition := [⟨"A", 1, 0, 0, 0, none, none⟩]

/-- Constant return series, so every covariance vanishes. -/
def c8Returns : List (String × List ℚ) := [("A", [1/100, 1/100])]

theorem c8_quadForm_zero :
    quadForm ((buildWeights c8Positions).map (fun kv => kv.2)) (covMatrixEntry c8Returns) = 0 := by
  have hw : (buildWeights c8Positions).map (fun kv => kv.2) = [1] := by
    rw [buildWeights_eq_of_nodup c8Positions (by decide), List.map_map]
    rfl
  have hc : covMatrixEntry c8Returns 0 0 = 0 := by
    unfold covMatrixEntry
    have hser : ((c8Returns.map (fun kv => kv.2)).getD 0 []) = [1/100, 1/100] := rfl
    rw [hser]
    norm_num [calculateCovariance]
  rw [hw]
  unfold quadForm
  have hlen : ([1] : List ℚ).length = 1 := rfl
  have hr1 : List.range 1 = [0] := rfl
  rw [hlen, hr1]
  simp only [List.map_cons, List.map_nil, List.sum_cons, List.sum_nil]
  rw [hc]
  norm_num

theorem c8_volatility_zero :
    calculatePortfolioVolatility ((buildWeights c8Positions).map (fun kv => kv.2))
      (covMatrixEntry c8Returns) = 0 := by
  unfold calculatePortfolioVolatility
  rw [c8_quadForm_zero]
  simp

/-- C8 (counterexample): at a concrete input whose constant return series
force the portfolio volatility to 0, the benchmarkVaR field of the result is
non finite (the unguarded division by the zero volatility), contradicting the
claim that it remains finite. -/
theorem benchmark_var_counterexample :
    calculatePortfolioVolatility ((buildWeights c8Positions).map (fun kv => kv.2))
      (covMatrixEntry c8Returns) = 0 ∧
    benchmarkVaRField ((calculateVaR c8Positions c8Returns (19/20) : ℚ) : ℝ)
      (calculatePortfolioVolatility ([((1:ℚ))]) (covMatrixEntry c8Returns))
      (calculatePortfolioVolatility ((buildWeights c8Positions).map (fun kv => kv.2))
        (covMatrixEntry c8Returns)) = none := by
  refine ⟨c8_volatility_zero, ?_⟩
  rw [c8_volatility_zero]
  unfold benchmarkVaRField jsDivR
  rw [if_pos rfl]
  rfl

/-- C8 (witness): the amended statement instantiated with a constant active
return list and with the degenerate volatility scenario. -/
theorem information_ratio_guard_witness :
    popVariance [1/100, 1/100] = 0 ∧
    calculateInformationRatioUtil 5 (calculateTrackingErrorUtil [1/100, 1/100]) = 0 ∧
    calculatePortfolioVolatility ((buildWeights c8Positions).map (fun kv => kv.2))
      (covMatrixEntry c8Returns) = 0 ∧
    benchmarkVaRField 3 7
      (calculatePortfolioVolatility ((buildWeights c8Positions).map (fun kv => kv.2))
        (covMatrixEntry c8Returns)) = none := by
  have hpv : popVariance [1/100, 1/100] = 0 := by
    norm_num [popVariance]
  refine ⟨hpv,
    information_ratio_guard_and_benchmark_var_unguarded.1 5 [1/100, 1/100] hpv,
    c8_volatility_zero,
    information_ratio_guard_and_benchmark_var_unguarded.2 3 7 _ c8_volatility_zero⟩

-- ===========================================================================
-- Iteration order of the historical return map (claim C9)
-- ===========================================================================

/-- Full weight position A and zero weight position B. -/
def ordPositions : List PortfolioPosition :=
  [⟨"A", 1, 0, 0, 0, none, none⟩, ⟨"B", 0, 0, 0, 0, none, none⟩]

/-- Series of ticker A (sample variance 1/50). -/
def ordSeries1 : List ℚ := [0, 1/5]

/-- Series of ticker B (sample variance 2/25). -/
def ordSeries2 : List ℚ := [0, 2/5]

/-- Return map in insertion order A then B. -/
def ordReturns1 : List (String × List ℚ) := [("A", ordSeries1), ("B", ordSeries2)]

/-- The same mapping with iteration order B then A. -/
def ordReturns2 : List (String × List ℚ) := [("B", ordSeries2), ("A", ordSeries1)]

/-- The two return maps agree as mappings on every key. -/
theorem ordReturns_lookup_agree : ∀ t, getSeries ordReturns1 t = getSeries ordReturns2 t := by
  intro t
  rcases eq_or_ne t "A" with rfl | hA
  · rfl
  · rcases eq_or_ne t "B" with rfl | hB
    · rfl
    · show lookupD ordReturns1 t [] = lookupD ordReturns2 t []
      unfold lookupD ordReturns1 ordReturns2
      rw [List.find?_cons_of_neg _ (by simp only [beq_iff_eq]; exact Ne.symm hA),
        List.find?_cons_of_neg _ (by simp only [beq_iff_eq]; exact Ne.symm hB),
        List.find?_nil]
      rw [List.find?_cons_of_neg _ (by simp only [beq_iff_eq]; exact Ne.symm hB),
        List.find?_cons_of_neg _ (by simp only [beq_iff_eq]; exact Ne.symm hA),
        List.find?_nil]

theorem ord_quadForm1 :
    quadForm ((buildWeights ordPositions).map (fun kv => kv.2)) (covMatrixEntry ordReturns1)
      = 1/50 := by
  have hw : (buildWeights ordPositions).map (fun kv => kv.2) = [1, 0] := by
    rw [buildWeights_eq_of_nodup ordPositions (by decide), List.map_map]
    rfl
  have hc : covMatrixEntry ordReturns1 0 0 = 1/50 := by
    unfold covMatrixEntry
    have hser : ((ordReturns1.map (fun kv => kv.2)).getD 0 []) = [0, 1/5] := rfl
    rw [hser]
    norm_num [calculateCovariance]
  rw [hw]
  unfold quadForm
  have hlen : ([1, 0] : List ℚ).length = 2 := rfl
  have hr2 : List.range 2 = [0, 1] := rfl
  rw [hlen, hr2]
  simp only [List.map_cons, List.map_nil, List.sum_cons, List.sum_nil]
  rw [hc]
  norm_num

theorem ord_quadForm2 :
    quadForm ((buildWeights ordPositions).map (fun kv => kv.2)) (covMatrixEntry ordReturns2)
      = 2/25 := by
  have hw : (buildWeights ordPositions).map (fun kv => kv.2) = [1, 0] := by
    rw [buildWeights_eq_of_nodup ordPositions (by decide), List.map_map]
    rfl
  have hc : covMatrixEntry ordReturns2 0 0 = 2/25 := by
    unfold covMatrixEntry
    have hser : ((ordReturns2.map (fun kv => kv.2)).getD 0 []) = [0, 2/5] := rfl
    rw [hser]
    norm_num [calculateCovariance]
  rw [hw]
  unfold quadForm
  have hlen : ([1, 0] : List ℚ).length = 2 := rfl
  have hr2 : List.range 2 = [0, 1] := rfl
  rw [hlen, hr2]
  simp only [List.map_cons, List.map_nil, List.sum_cons, List.sum_nil]
  rw [hc]
  norm_num

/-- C9 (counterexample): the two return maps are equal as mappings (every key
returns the same series), yet the portfolio volatility differs between the
two iteration orders: the covariance matrix rows follow the key order of the
map while the weight vector follows the position order, so the quadratic form
picks out the variance of whichever series comes first. -/
theorem volatility_order_counterexample :
    (∀ t, getSeries ordReturns1 t = getSeries ordReturns2 t) ∧
    calculatePortfolioVolatility ((buildWeights ordPositions).map (fun kv => kv.2))
      (covMatrixEntry ordReturns1) ≠
    calculatePortfolioVolatility ((buildWeights ordPositions).map (fun kv => kv.2))
      (covMatrixEntry ordReturns2) := by
  refine ⟨ordReturns_lookup_agree, ?_⟩
  unfold calculatePortfolioVolatility
  rw [ord_quadForm1, ord_quadForm2]
  have h1 : max (0:ℝ) (((1/50 : ℚ) : ℝ)) = ((1/50 : ℚ) : ℝ) := max_eq_right (by positivity)
  have h2 : max (0:ℝ) (((2/25 : ℚ) : ℝ)) = ((2/25 : ℚ) : ℝ) := max_eq_right (by positivity)
  rw [h1, h2]
  apply ne_of_lt
  apply Real.sqrt_lt_sqrt (by positivity)
  have : ((1:ℚ)/50 : ℚ) < 2/25 := by norm_num
  exact_mod_cast this

/-- C9 (amended): runs are deterministic, and the VaR and CVaR outputs access
the return map only through keyed lookups, so they are invariant under any
change of iteration order that preserves the mapping; the covariance based
outputs are not (see the volatility counterexample). -/
theorem var_cvar_order_invariant (positions : List PortfolioPosition)
    (r1 r2 : List (String × List ℚ)) (confidenceLevel : ℚ)
    (h : ∀ t, getSeries r1 t = getSeries r2 t) :
    calculateVaR positions r1 confidenceLevel = calculateVaR positions r2 confidenceLevel ∧
    calculateCVaR positions r1 confidenceLevel = calculateCVaR positions r2 confidenceLevel := by
  have hfun : getSeries r1 = getSeries r2 := funext h
  have hprs : portfolioReturnSeries positions r1 = portfolioReturnSeries positions r2 := by
    unfold portfolioReturnSeries
    rw [hfun]
  constructor
  · unfold calculateVaR
    rw [hprs]
  · unfold calculateCVaR
    rw [hprs]

/-- C9 (witness): the order invariance of VaR and CVaR applied to the two
reorderings of the concrete return map. -/
theorem var_cvar_order_invariant_witness :
    (∀ t, getSeries ordReturns1 t = getSeries ordReturns2 t) ∧
    (calculateVaR ordPositions ordReturns1 (19/20) =
        calculateVaR ordPositions ordReturns2 (19/20) ∧
      calculateCVaR ordPositions ordReturns1 (19/20) =
        calculateCVaR ordPositions ordReturns2 (19/20)) :=
  ⟨ordReturns_lookup_agree,
    var_cvar_order_invariant ordPositions ordReturns1 ordReturns2 (19/20)
      ordReturns_lookup_agree⟩

-- ===========================================================================
-- Multi period linking (claim C3)
-- ===========================================================================

/-- Embedding of chainLinkReturnsUtil: 0 on an empty list, else the product
of one plus each return, minus one. -/
def chainLinkReturnsUtil (returns : List ℚ) : ℚ :=
  if returns = [] then 0 else (returns.map (fun r => 1 + r)).prod - 1

/-- Real valued twin of chainLinkReturnsUtil, used next to the logarithm
based Carino factors. -/
noncomputable def chainLinkReturnsR (returns : List ℝ) : ℝ :=
  if returns = [] then 0 else (returns.map (fun r => 1 + r)).prod - 1

/-- Linked effect record of the linking methods, mirroring the fields of the
TS return value. -/
structure LinkedEffects (α : Type) where
  linkedAllocationEffect : α
  linkedSelectionEffect : α
  linkedInteractionEffect : α
  smoothingAdjustment : α

/-- Embedding of applyGRAPLinking: the cumulative returns are the last
entries of the running product arrays (for a non empty period list the
product of one plus each return minus one; the source reads index n - 1 and
produces NaN for an empty list, excluded by the theorems below), a single
scalar beta scales every raw effect, and the residual is reported as the
smoothing adjustment. -/
def applyGRAPLinking (allocationEffects selectionEffects interactionEffects
    portfolioReturns benchmarkReturns : List ℚ) : LinkedEffects ℚ :=
  let cumulativePortfolioReturn := (portfolioReturns.map (fun r => 1 + r)).prod - 1
  let cumulativeBenchmarkReturn := (benchmarkReturns.map (fun r => 1 + r)).prod - 1
  let cumulativeActiveReturn := cumulativePortfolioReturn - cumulativeBenchmarkReturn
  let totalEffect := allocationEffects.sum + selectionEffects.sum + interactionEffects.sum
  let beta := if 1/10000000000 < |totalEffect| then cumulativeActiveReturn / totalEffect else 1
  let linkedAllocationEffect := (allocationEffects.map (fun x => beta * x)).sum
  let linkedSelectionEffect := (selectionEffects.map (fun x => beta * x)).sum
  let linkedInteractionEffect := (interactionEffects.map (fun x => beta * x)).sum
  { linkedAllocationEffect := linkedAllocationEffect
    linkedSelectionEffect := linkedSelectionEffect
    linkedInteractionEffect := linkedInteractionEffect
    smoothingAdjustment := cumulativeActiveReturn -
      (linkedAllocationEffect + linkedSelectionEffect + linkedInteractionEffect) }

/-- Per period Carino factor: the logarithmic ratio when the period returns
differ, the derivative limit 1 / (1 + Rb) when they coincide. -/
noncomputable def carinoFactor (rp rb : ℝ) : ℝ :=
  if rp ≠ rb then (Real.log (1 + rp) - Real.log (1 + rb)) / (rp - rb)
  else 1 / (1 + rb)

/-- Embedding of applyCarinoLinking: per period factors normalized by their
average over the periods (the source divides by n, the number of effect
entries), applied to each effect series; no smoothing adjustment is
emitted. -/
noncomputable def applyCarinoLinking (allocationEffects selectionEffects interactionEffects
    portfolioReturns benchmarkReturns : List ℝ) : LinkedEffects ℝ :=
  let kSum := ((portfolioReturns.zip benchmarkReturns).map
    (fun x => carinoFactor x.1 x.2)).sum
  let k := kSum / (allocationEffects.length : ℝ)
  let kts := (portfolioReturns.zip benchmarkReturns).map (fun x => carinoFactor x.1 x.2 / k)
  { linkedAllocationEffect := ((kts.zip allocationEffects).map (fun x => x.1 * x.2)).sum
    linkedSelectionEffect := ((kts.zip selectionEffects).map (fun x => x.1 * x.2)).sum
    linkedInteractionEffect := ((kts.zip interactionEffects).map (fun x => x.1 * x.2)).sum
    smoothingAdjustment := 0 }

theorem list_sum_map_mul_left (l : List ℚ) (b : ℚ) :
    (l.map (fun x => b * x)).sum = b * l.sum := by
  induction l with
  | nil => simp
  | cons a l ih => simp [ih, mul_add]

/-- C3 (amended): the GRAP method reconciles exactly: the linked effects plus
the reported smoothing adjustment equal the cumulative active return of the
multi period result, and whenever the raw effect total clears the 1e-10
threshold the smoothing adjustment itself is 0 (beta absorbs the whole
correction). -/
theorem grap_linking_reconciles (a s i rp rb : List ℚ) (hrp : rp ≠ []) (hrb : rb ≠ []) :
    (applyGRAPLinking a s i rp rb).linkedAllocationEffect +
      (applyGRAPLinking a s i rp rb).linkedSelectionEffect +
      (applyGRAPLinking a s i rp rb).linkedInteractionEffect +
      (applyGRAPLinking a s i rp rb).smoothingAdjustment =
      chainLinkReturnsUtil rp - chainLinkReturnsUtil rb ∧
    (1/10000000000 < |a.sum + s.sum + i.sum| →
      (applyGRAPLinking a s i rp rb).smoothingAdjustment = 0) := by
  unfold applyGRAPLinking
  rw [chainLinkReturnsUtil, chainLinkReturnsUtil, if_neg hrp, if_neg hrb]
  constructor
  · ring
  · intro h
    have hT : a.sum + s.sum + i.sum ≠ 0 := by
      intro hc
      rw [hc] at h
      norm_num at h
    simp only []
    rw [if_pos h, list_sum_map_mul_left, list_sum_map_mul_left, list_sum_map_mul_left]
    field_simp
    ring

/-- C3 (witness): the GRAP reconciliation at one concrete period. -/
theorem grap_linking_reconciles_witness :
    ([(2:ℚ)/100] ≠ ([] : List ℚ)) ∧ ([(1:ℚ)/100] ≠ ([] : List ℚ)) ∧
    ((applyGRAPLinking [1/100] [0] [0] [2/100] [1/100]).linkedAllocationEffect +
        (applyGRAPLinking [1/100] [0] [0] [2/100] [1/100]).linkedSelectionEffect +
        (applyGRAPLinking [1/100] [0] [0] [2/100] [1/100]).linkedInteractionEffect +
        (applyGRAPLinking [1/100] [0] [0] [2/100] [1/100]).smoothingAdjustment =
        chainLinkReturnsUtil [2/100] - chainLinkReturnsUtil [1/100] ∧
      (1/10000000000 < |([(1:ℚ)/100]).sum + ([(0:ℚ)]).sum + ([(0:ℚ)]).sum| →
        (applyGRAPLinking [1/100] [0] [0] [2/100] [1/100]).smoothingAdjustment = 0)) :=
  ⟨by simp, by simp,
    grap_linking_reconciles [1/100] [0] [0] [2/100] [1/100] (by simp) (by simp)⟩

/-- C3 (counterexample): two identical periods with portfolio return 0.1 and
benchmark return 0, allocation effect 0.1 each (selection and interaction 0,
so each period reconciles exactly).  The Carino factors of the two periods
are equal, the average normalization makes every scaled factor 1, and the
linked total is 0.2 with no smoothing adjustment, while the cumulative active
return is 1.1 * 1.1 - 1 = 0.21: the claimed identity misses by 0.01, four
orders of magnitude beyond the 1e-6 tolerance. -/
theorem carino_linking_counterexample :
    ¬ (|(applyCarinoLinking [1/10, 1/10] [0, 0] [0, 0] [1/10, 1/10] [0, 0]).linkedAllocationEffect +
        (applyCarinoLinking [1/10, 1/10] [0, 0] [0, 0] [1/10, 1/10] [0, 0]).linkedSelectionEffect +
        (applyCarinoLinking [1/10, 1/10] [0, 0] [0, 0] [1/10, 1/10] [0, 0]).linkedInteractionEffect +
        (applyCarinoLinking [1/10, 1/10] [0, 0] [0, 0] [1/10, 1/10] [0, 0]).smoothingAdjustment -
        (chainLinkReturnsR [1/10, 1/10] - chainLinkReturnsR [0, 0])| ≤ 1/1000000) := by
  have hKpos : 0 < carinoFactor (1/10 : ℝ) 0 := by
    unfold carinoFactor
    rw [if_pos (by norm_num : ¬ ((1:ℝ)/10) = 0)]
    apply div_pos
    · rw [show (1:ℝ) + 0 = 1 from by norm_num, Real.log_one, sub_zero]
      exact Real.log_pos (by norm_num)
    · norm_num
  have hKne : carinoFactor (1/10 : ℝ) 0 ≠ 0 := ne_of_gt hKpos
  set K := carinoFactor (1/10 : ℝ) 0 with hKdef
  have hres : applyCarinoLinking [1/10, 1/10] [0, 0] [0, 0] [1/10, 1/10] [0, 0] =
      { linkedAllocationEffect := 1/5, linkedSelectionEffect := 0,
        linkedInteractionEffect := 0, smoothingAdjustment := 0 } := by
    unfold applyCarinoLinking
    simp only [List.zip_cons_cons, List.zip_nil_left, List.zip_nil_right, List.map_cons,
      List.map_nil, List.sum_cons, List.sum_nil, List.length_cons, List.length_nil, ← hKdef]
    have hkk : K / ((K + (K + 0)) / ((0 + 1 + 1 : ℕ) : ℝ)) = 1 := by
      rw [show ((0 + 1 + 1 : ℕ) : ℝ) = 2 from by norm_num]
      rw [show (K + (K + 0)) / 2 = K from by ring]
      exact div_self hKne
    rw [hkk]
    norm_num
  rw [hres]
  have hp : chainLinkReturnsR [1/10, 1/10] = 21/100 := by
    unfold chainLinkReturnsR
    rw [if_neg (by simp)]
    simp only [List.map_cons, List.map_nil, List.prod_cons, List.prod_nil]
    norm_num
  have hb : chainLinkReturnsR [0, 0] = 0 := by
    unfold chainLinkReturnsR
    rw [if_neg (by simp)]
    simp only [List.map_cons, List.map_nil, List.prod_cons, List.prod_nil]
    norm_num
  rw [hp, hb]
  rw [show ((1:ℝ)/5 + 0 + 0 + 0 - (21/100 - 0)) = -(1/100) from by norm_num]
  rw [abs_neg, abs_of_pos (by norm_num : (0:ℝ) < 1/100)]
  norm_num
